import Mathlib

/-
Verification of the schema-to-model compiler of langchain-mcp
(src/langchain_mcp/toolkit.py).  The development shallowly embeds the three
functions resolve_ref, get_field_type and create_model_from_schema together
with the pieces of Python runtime semantics they rely on (dict/str/list
membership, dict.get, str.split, str.lstrip, the runtime union operator and
typing.Union), and proves or refutes the frozen claims about them.
-/

/-- JSON values as decoded by the Python json module.  Numbers are modelled as
integers: no claim involves fractional values, and JSON schema documents in
this code base use only integral literals.  Objects are key-value lists in
source order with pairwise distinct keys, which is what Python dicts decoded
from JSON provide. -/
inductive Json where
  | null
  | bool (b : Bool)
  | num (n : Int)
  | str (s : String)
  | arr (xs : List Json)
  | obj (kvs : List (String × Json))

/-- Error kinds raised by the compiler.  nonLocalRef and missingKey are the two
ValueError messages of resolve_ref (the UnresolvedReference kind of the spec);
typeError and attributeError are the Python TypeError and AttributeError that
other inputs can raise; outOfFuel is the marker of the explicit recursion
bound used to embed the recursive builder (it is never reached from the
top-level entry point with the bound chosen there). -/
inductive Err where
  | nonLocalRef (ref : String)
  | missingKey (part : String) (keys : List String)
  | typeError
  | attributeError
  | valueError
  | outOfFuel
deriving DecidableEq

/-- Lookup in a Python dict viewed as a key-value list (first match). -/
def jsonLookup : List (String × Json) → String → Option Json
  | [], _ => none
  | (k, v) :: rest, key => if k = key then some v else jsonLookup rest key

/-- Python dict.get with a default, on an object fragment known to be a dict. -/
def jsonGetD (kvs : List (String × Json)) (key : String) (dflt : Json) : Json :=
  (jsonLookup kvs key).getD dflt

/-- Python attribute access pattern j.get(key): calling .get on a non-dict
value raises AttributeError. -/
def pyGetOpt (j : Json) (key : String) : Except Err (Option Json) :=
  match j with
  | .obj kvs => pure (jsonLookup kvs key)
  | _ => throw .attributeError

/-- Boolean prefix test on character lists (semantics of str.startswith). -/
def pyStartsWith (s pre : String) : Bool := pre.data.isPrefixOf s.data

/-- Boolean substring test on character lists (semantics of the Python
membership operator between two strings). -/
def charInfix (needle : List Char) : List Char → Bool
  | [] => needle.isEmpty
  | c :: rest => needle.isPrefixOf (c :: rest) || charInfix needle rest

/-- Python membership test key in j, as used by resolve_ref (line 76), by the
defs guard (line 167) and by the required test (line 179).  For a dict it is
key presence, for a str a substring test, for a list an equality scan (a
string compares equal only to an equal string), and for any other value
Python raises TypeError. -/
def pyContains (key : String) : Json → Except Err Bool
  | .obj kvs => pure (kvs.any (fun p => p.1 == key))
  | .str s => pure (charInfix key.data s.data)
  | .arr xs => pure (xs.any (fun x => match x with | .str t => t == key | _ => false))
  | _ => throw .typeError

/-- Python iteration as used by the enum dict comprehension at line 97: a list
yields its elements, a str yields its characters as one-character strings, a
dict yields its keys, anything else raises TypeError. -/
def pyIter : Json → Except Err (List Json)
  | .arr xs => pure xs
  | .str s => pure (s.data.map (fun c => .str (String.mk [c])))
  | .obj kvs => pure (kvs.map (fun p => .str p.1))
  | _ => throw .typeError

mutual

/-- Python repr of a json-decoded value (used through str on lists). -/
def pyRepr : Json → String
  | .null => "None"
  | .bool true => "True"
  | .bool false => "False"
  | .num n => toString n
  | .str s => "\x27" ++ s ++ "\x27"
  | .arr xs => "[" ++ String.intercalate ", " (pyReprList xs) ++ "]"
  | .obj kvs => "\x7b" ++ String.intercalate ", " (pyReprKV kvs) ++ "\x7d"

def pyReprList : List Json → List String
  | [] => []
  | x :: rest => pyRepr x :: pyReprList rest

def pyReprKV : List (String × Json) → List String
  | [] => []
  | (k, v) :: rest => ("\x27" ++ k ++ "\x27: " ++ pyRepr v) :: pyReprKV rest

end

/-- Python str of a json-decoded value: a str is itself, anything else renders
as its repr. -/
def pyStr : Json → String
  | .str s => s
  | j => pyRepr j

/-- Stand-in for the Python hash function on strings.  The real hash is
deterministic only within one process (PYTHONHASHSEED), so any fixed
deterministic function is as faithful as an embedding can be; no claim
depends on the derived enum class name. -/
def pyHash (s : String) : Nat :=
  s.data.foldl (fun h c => h * 31 + c.toNat) 7

/-- Python dict insertion d[k] = v as performed by a dict comprehension: an
existing key keeps its original position and receives the new value, a new
key is appended.  The enum branch builds its member mapping this way, so two
values with the same stringified form are silently collapsed into one entry
holding the last value. -/
def dictInsert (d : List (String × Json)) (k : String) (v : Json) : List (String × Json) :=
  if d.any (fun p => p.1 == k) then d.map (fun p => if p.1 == k then (k, v) else p)
  else d ++ [(k, v)]

/-- Semantic field types: the Python type expressions get_field_type returns.
forwardRef is the plain string returned for a $ref fragment (the title of the
resolved fragment, kept as a Json value because the code returns whatever
.get produced); enumType is the class built by the Enum functional
constructor, carrying the derived member mapping; plistRaw and pdictRaw are
the bare list and dict classes of TYPEMAP (unreachable through
get_field_type, whose array and object branches return earlier); union is a
flattened, deduplicated typing.Union (Python has a single representation for
an optional type: a union containing NoneType). -/
inductive PyType where
  | pstr
  | pint
  | pfloat
  | pbool
  | pnone
  | pAny
  | plist (elem : PyType)
  | pdict (key value : PyType)
  | plistRaw
  | pdictRaw
  | forwardRef (title : Json)
  | enumType (name : String) (members : List (String × Json))
  | union (variants : List PyType)

mutual

/-- Structural equality of json values, matching Python equality on the values
appearing in the schemas of interest.  Python additionally equates bool with
int and int with float across types; those cross-type cases are not modelled
and no claim depends on them. -/
def beqJson : Json → Json → Bool
  | .null, .null => true
  | .bool a, .bool b => a == b
  | .num a, .num b => a == b
  | .str a, .str b => a == b
  | .arr a, .arr b => beqJsonList a b
  | .obj a, .obj b => beqJsonKV a b
  | _, _ => false

def beqJsonList : List Json → List Json → Bool
  | [], [] => true
  | a :: as_, b :: bs => beqJson a b && beqJsonList as_ bs
  | _, _ => false

def beqJsonKV : List (String × Json) → List (String × Json) → Bool
  | [], [] => true
  | (ka, va) :: as_, (kb, vb) :: bs => ka == kb && beqJson va vb && beqJsonKV as_ bs
  | _, _ => false

end

mutual

/-- Equality of Python type objects as used by typing.Union deduplication.
Generic aliases, unions, forward references and primitives compare
structurally in Python; separately constructed Enum classes compare by
identity, which structural equality over-approximates only when two
syntactically identical enum schemas meet in one union, a case no claim
touches. -/
def beqPy : PyType → PyType → Bool
  | .pstr, .pstr => true
  | .pint, .pint => true
  | .pfloat, .pfloat => true
  | .pbool, .pbool => true
  | .pnone, .pnone => true
  | .pAny, .pAny => true
  | .plist a, .plist b => beqPy a b
  | .pdict ka va, .pdict kb vb => beqPy ka kb && beqPy va vb
  | .plistRaw, .plistRaw => true
  | .pdictRaw, .pdictRaw => true
  | .forwardRef a, .forwardRef b => beqJson a b
  | .enumType na ma, .enumType nb mb => na == nb && beqJsonKV ma mb
  | .union a, .union b => beqPyList a b
  | _, _ => false

def beqPyList : List PyType → List PyType → Bool
  | [], [] => true
  | a :: as_, b :: bs => beqPy a b && beqPyList as_ bs
  | _, _ => false

end

/-- Member list contributed by a type to a union: an existing union contributes
its members, anything else contributes itself. -/
def unionMembers : PyType → List PyType
  | .union ts => ts
  | t => [t]

/-- Deduplication keeping the first occurrence, with an accumulator of the
members already kept, as typing.Union performs on its flattened members. -/
def dedupAux (acc : List PyType) : List PyType → List PyType
  | [] => acc
  | t :: rest =>
    if acc.any (fun u => beqPy u t) then dedupAux acc rest
    else dedupAux (acc ++ [t]) rest

/-- Semantics of typing.Union applied to a tuple of types: nested unions are
flattened, duplicates are removed keeping the first occurrence, a single
remaining type is returned as itself, and a union of no types raises
TypeError. -/
def mkUnion (ts : List PyType) : Except Err PyType :=
  match dedupAux [] ((ts.map unionMembers).flatten) with
  | [] => throw .typeError
  | [t] => pure t
  | more => pure (.union more)

/-- Runtime evaluation of t | type(None) (PEP 604), used at lines 107 and 180.
Every type object the mapper produces supports the operator except the plain
strings returned for a $ref: the runtime union operator does not accept
string forward references, so Python raises TypeError for them. -/
def pyOrNone : PyType → Except Err PyType
  | .forwardRef _ => throw .typeError
  | t => mkUnion [t, .pnone]

/-- Test against the NoneType class, as in the identity and membership checks
of lines 103 and 104. -/
def isPNone : PyType → Bool
  | .pnone => true
  | _ => false

/-- Python lstrip with the two-character set of line 72: it strips every
leading occurrence of either character, not merely one literal prefix. -/
def pyLstripHashSlash (s : String) : List Char :=
  s.data.dropWhile (fun c => c == '#' || c == '/')

/-- Python str.split on the slash separator: splitting the empty string yields
one empty piece and consecutive separators yield empty pieces. -/
def splitSlash : List Char → List (List Char)
  | [] => [[]]
  | c :: rest =>
    if c = '/' then [] :: splitSlash rest
    else
      match splitSlash rest with
      | [] => [[c]]
      | p :: ps => (c :: p) :: ps

/-- Path segments of a reference pointer, as computed at line 72. -/
def refParts (ref : String) : List String :=
  (splitSlash (pyLstripHashSlash ref)).map (fun cs => String.mk cs)

/-- Walk of resolve_ref (lines 75-78) over the path segments.  At each step the
membership test runs first; when it fails on a dict the ValueError carrying
the offending segment and the available keys is raised, while the message
formatting itself raises AttributeError on a non-dict (list(current.keys())).
When the membership test passes, indexing a non-dict with a string segment
raises TypeError. -/
def resolveSteps : Json → List String → Except Err Json
  | current, [] => pure current
  | current, part :: rest => do
    let c ← pyContains part current
    if c then
      match current with
      | .obj kvs =>
        match jsonLookup kvs part with
        | some v => resolveSteps v rest
        | none => throw .typeError
      | _ => throw .typeError
    else
      match current with
      | .obj kvs => throw (.missingKey part (kvs.map Prod.fst))
      | _ => throw .attributeError

/-- Embedding of resolve_ref (lines 67-80). -/
def resolve_ref (root : Json) (ref : String) : Except Err Json :=
  if pyStartsWith ref "#/" then resolveSteps root (refParts ref)
  else throw (.nonLocalRef ref)

mutual

/-- Computable structural size of a json value, used as the recursion bound of
the embedding of get_field_type. -/
def jsonSize : Json → Nat
  | .null => 1
  | .bool _ => 1
  | .num _ => 1
  | .str _ => 1
  | .arr xs => jsonSizeList xs + 1
  | .obj kvs => jsonSizeKV kvs + 1

def jsonSizeList : List Json → Nat
  | [] => 0
  | x :: rest => jsonSize x + jsonSizeList rest

def jsonSizeKV : List (String × Json) → Nat
  | [] => 0
  | (_, v) :: rest => jsonSize v + jsonSizeKV rest + 1

end

/-- Postprocessing of the mapped anyOf variants (lines 102-111): NoneType is
filtered out of the variant list; when NoneType was among the mapped types a
single remaining variant is joined with NoneType by the runtime | operator
and any other number of variants goes through typing.Union together with
NoneType; without NoneType a single variant is returned alone and the rest
go through typing.Union (which raises TypeError on an empty tuple). -/
def anyOfCombine (ts : List PyType) : Except Err PyType :=
  let remaining := ts.filter (fun u => !(isPNone u))
  if ts.any isPNone then
    match remaining with
    | [t0] => pyOrNone t0
    | more => mkUnion (more ++ [.pnone])
  else
    match remaining with
    | [t0] => pure t0
    | more => mkUnion more

/-- TYPEMAP of lines 56-64 accessed through dict.get with default Any.  The
array and object entries are present for fidelity but are unreachable
through get_field_type, whose array and object branches return earlier. -/
def typemapGet : String → PyType
  | "string" => .pstr
  | "integer" => .pint
  | "number" => .pfloat
  | "boolean" => .pbool
  | "array" => .plistRaw
  | "object" => .pdictRaw
  | "null" => .pnone
  | _ => .pAny

/-- Left-to-right effectful map over a list, the semantics of a Python list
comprehension whose body can raise: the first raised error propagates. -/
def mapExcept {α β : Type} (f : α → Except Err β) : List α → Except Err (List β)
  | [] => pure []
  | a :: rest => do
    let b ← f a
    let bs ← mapExcept f rest
    pure (b :: bs)

/-- enum.py _is_sunder (CPython 3.12): a name of length at least three that
begins and ends with a single underscore. -/
def pyIsSunder (s : String) : Bool :=
  decide (2 < s.data.length) && decide (s.data.head? = some '_')
    && decide (s.data.getLast? = some '_')
    && !(decide ((s.data.drop 1).head? = some '_'))
    && !(decide ((s.data.reverse.drop 1).head? = some '_'))

/-- enum.py _is_dunder (CPython 3.12): a name of length at least five that
begins and ends with exactly two underscores. -/
def pyIsDunder (s : String) : Bool :=
  decide (4 < s.data.length) && decide (s.data.take 2 = ['_', '_'])
    && decide (s.data.reverse.take 2 = ['_', '_'])
    && !(decide ((s.data.drop 2).head? = some '_'))
    && !(decide ((s.data.reverse.drop 2).head? = some '_'))

/-- enum.py _is_private: the name continues past the prefix underscore plus
class name plus double underscore without an immediate further underscore
and does not end in a double underscore.  The class name of line 96 embeds
the seed-dependent hash, so whether a fixed schema value matches depends on
the interpreter run; the embedding stays executable through the pyHash
stand-in. -/
def pyIsPrivate (cls s : String) : Bool :=
  decide (("_" ++ cls ++ "__").data.length < s.data.length)
    && decide (s.data.take ("_" ++ cls ++ "__").data.length = ("_" ++ cls ++ "__").data)
    && !(decide ((s.data.drop ("_" ++ cls ++ "__").data.length).head? = some '_'))
    && !(decide (s.data.reverse.take 2 = ['_', '_']))

/-- The sunder names enum._EnumDict.__setitem__ accepts (CPython 3.12); any
other sunder member name raises ValueError. -/
def enumAllowedSunder : List String :=
  ["_order_", "_generate_next_value_", "_numeric_repr_", "_missing_", "_ignore_",
   "_iter_member_", "_iter_member_by_value_", "_iter_member_by_def_"]

/-- Name processing of the Enum functional API (line 98) over the
comprehension dict: each key passes through enum._EnumDict.__setitem__.  A
private or dunder name becomes a plain class attribute rather than a member
(__order__ is kept as the _order_ setting); an allowed sunder name is an
Enum setting, not a member (an _ignore_ list derived from a schema value
is the single-element list naming itself, since str of no other JSON value
equals a sunder name, so it can never suppress another key; _order_ is kept
for the final order check); any other sunder name raises ValueError.
Returns the member list and whether an order setting was seen. -/
def pyEnumScan (cls : String) : List (String × Json) → Except Err (List (String × Json) × Bool)
  | [] => pure ([], false)
  | (k, v) :: rest =>
    if pyIsPrivate cls k then pyEnumScan cls rest
    else if pyIsSunder k then
      if enumAllowedSunder.contains k then
        if k = "_order_" then do
          let (ms, _) ← pyEnumScan cls rest
          pure (ms, true)
        else pyEnumScan cls rest
      else throw .valueError
    else if pyIsDunder k then
      if k = "__order__" then do
        let (ms, _) ← pyEnumScan cls rest
        pure (ms, true)
      else pyEnumScan cls rest
    else do
      let (ms, ho) ← pyEnumScan cls rest
      pure ((k, v) :: ms, ho)

/-- Enum creation of line 98 (the Enum functional API): after the name scan,
EnumType.__new__ rejects the member names mro and the empty string with
ValueError, and a stored order setting is compared against the member-name
list — an order key is never itself a member while its value (its own
string form) names only itself, so the comparison always fails with
TypeError.  Otherwise the enum type over the scanned members results. -/
def pyEnumCreate (cls : String) (d : List (String × Json)) : Except Err PyType := do
  let (members, hasOrder) ← pyEnumScan cls d
  if members.any (fun q => q.1 == "" || q.1 == "mro") then throw .valueError
  else if hasOrder then throw .typeError
  else pure (.enumType cls members)

/-- Fuel-indexed body of get_field_type (lines 83-134).  The Python function
recurses on strict sub-fragments of its argument, which the fuel parameter
bounds; the public wrapper get_field_type supplies sizeOf of the fragment,
which the theorem getFT_irrel shows is always enough, so the embedding is
total and the outOfFuel case is unreachable from the wrapper.  A non-dict
fragment maps to Any (lines 86-87).  A $ref fragment resolves the pointer
against the document root and returns the title of the resolved fragment as
a plain string (a forward reference), defaulting to UntitledModel; a
non-string pointer value fails the startswith attribute access and a
non-dict resolved fragment fails the .get attribute access.  An enum
fragment builds the Enum member mapping by a dict comprehension over str of
each value and passes it through the Enum functional API, whose member-name
rules (pyEnumScan, pyEnumCreate) apply.  An anyOf fragment maps each sub-schema in source order and
combines the results; iterating a str or dict anyOf value yields strings,
which are non-dict fragments mapping to Any without recursion, so those two
cases inline that result.  Otherwise the type key dispatches: array and
object are handled structurally, a string type name goes through TYPEMAP,
an unhashable type name (a list or dict) raises TypeError inside dict.get,
and any other hashable value is simply absent from TYPEMAP and yields
Any. -/
def getFT : Nat → Json → Json → Except Err PyType
  | 0, _, _ => throw .outOfFuel
  | fuel + 1, root, t =>
    match t with
    | .obj kvs =>
      match jsonLookup kvs "$ref" with
      | some (.str r) => do
        let frag ← resolve_ref root r
        match frag with
        | .obj fkvs => pure (.forwardRef (jsonGetD fkvs "title" (.str "UntitledModel")))
        | _ => throw .attributeError
      | some _ => throw .attributeError
      | none =>
        match jsonLookup kvs "enum" with
        | some ev => do
          let vs ← pyIter ev
          pyEnumCreate ("Enum_" ++ toString (pyHash (pyStr ev)))
            (vs.foldl (fun d v => dictInsert d (pyStr v) v) [])
        | none =>
          match jsonLookup kvs "anyOf" with
          | some (.arr xs) => do
            let ts ← mapExcept (getFT fuel root) xs
            anyOfCombine ts
          | some (.str s) => anyOfCombine (s.data.map (fun _ => PyType.pAny))
          | some (.obj okvs) => anyOfCombine (okvs.map (fun _ => PyType.pAny))
          | some _ => throw .typeError
          | none =>
            match jsonLookup kvs "type" with
            | none => pure .pAny
            | some (.str tn) =>
              if tn = "array" then
                match jsonLookup kvs "items" with
                | some it => (getFT fuel root it).map .plist
                | none => pure (.plist .pAny)
              else if tn = "object" then
                match jsonLookup kvs "additionalProperties" with
                | some (.bool _) => pure (.pdict .pstr .pAny)
                | some ap => (getFT fuel root ap).map (fun vt => .pdict .pstr vt)
                | none => pure (.pdict .pstr .pAny)
              else pure (typemapGet tn)
            | some (.arr _) => throw .typeError
            | some (.obj _) => throw .typeError
            | some _ => pure .pAny
    | _ => pure .pAny

/-- Embedding of get_field_type (lines 83-134): the fuel-indexed body run with
a sufficient bound. -/
def get_field_type (root t : Json) : Except Err PyType := getFT (jsonSize t) root t

/-- Field data recorded for one model field: the final annotation type, the
default (none models the Ellipsis sentinel marking a required field, some
models an actual default value) and the description, as assembled at
line 184. -/
structure FieldInfo where
  ftype : PyType
  default : Option Json
  descr : Json

/-- A model created by pydantic create_model at line 186: its name and its
ordered field table. -/
structure ModelDef where
  name : String
  fields : List (String × FieldInfo)

/-- Builder state threaded through create_model_from_schema: created_models
(the memo set of lines 152 and 164), the module namespace used as the model
registry (getattr and setattr at lines 161 and 188, session-local view
starting empty) and the trace of create_model events (line 186), recorded so
theorems can speak about how often construction logic runs. -/
structure BState where
  created : List String
  registry : List (String × ModelDef)
  trace : List String

/-- Module attribute lookup (getattr at line 161). -/
def registryLookup : List (String × ModelDef) → String → Option ModelDef
  | [], _ => none
  | (k, m) :: rest, key => if k = key then some m else registryLookup rest key

/-- Module attribute assignment (setattr at line 188): an existing name is
overwritten in place, a new name is appended. -/
def registryInsert (reg : List (String × ModelDef)) (k : String) (m : ModelDef) :
    List (String × ModelDef) :=
  if reg.any (fun p => p.1 == k) then reg.map (fun p => if p.1 == k then (k, m) else p)
  else reg ++ [(k, m)]

/-- Per-field processing of the properties loop (lines 176-184): map the field
schema to a type, read the explicit default from the field schema (the
absent marker Ellipsis is modelled as none; reading from a non-dict field
schema raises AttributeError), test membership in required with the Python
membership operator, and for a field neither required nor explicitly
defaulted widen the type with the runtime union operator and install a None
default.  The widening operator raises TypeError when the mapped type is a
plain string, which is what a $ref produces. -/
def buildField (root requiredJ : Json) (fname : String) (fschema : Json) :
    Except Err FieldInfo := do
  let ft ← get_field_type root fschema
  match fschema with
  | .obj fkvs => do
    let dflt := jsonLookup fkvs "default"
    let req ← pyContains fname requiredJ
    let descr := jsonGetD fkvs "description" (.str "")
    match req, dflt with
    | false, none => do
      let ft2 ← pyOrNone ft
      pure ⟨ft2, some .null, descr⟩
    | _, _ => pure ⟨ft, dflt, descr⟩
  | _ => throw .attributeError

/-- The properties loop itself, in source order (first error propagates). -/
def buildFields (root requiredJ : Json) :
    List (String × Json) → Except Err (List (String × FieldInfo))
  | [] => pure []
  | (fn, fs) :: rest => do
    let fi ← buildField root requiredJ fn fs
    let more ← buildFields root requiredJ rest
    pure ((fn, fi) :: more)

/-- The defs pre-materialization loop of lines 167-170, parameterized by the
recursive builder call.  For every entry the guard model_schema.get runs
first, raising AttributeError on a non-dict definition value; an
object-typed definition whose name is not yet in created_models is built
recursively, everything else is skipped. -/
def buildDefsList (recurse : Json → String → BState → Except Err (ModelDef × BState)) :
    List (String × Json) → BState → Except Err BState
  | [], st => pure st
  | (k, v) :: rest, st =>
    match v with
    | .obj vkvs =>
      match jsonLookup vkvs "type" with
      | some (.str tname) =>
        if tname = "object" ∧ ¬ (k ∈ st.created) then do
          let (_, st2) ← recurse v k st
          buildDefsList recurse rest st2
        else buildDefsList recurse rest st
      | _ => buildDefsList recurse rest st
    | _ => throw .attributeError

/-- The fields phase of create_model_from_schema (lines 172-189): read
properties and required, build the field list, assemble the model and
register it in the module namespace, appending the name to the build
trace.  This names the tail of the builder body so the invariant proofs
can speak about it; it is definitionally the code the builder runs after
the defs loop. -/
def finishPhase (root schema : Json) (name : String) (st2 : BState) :
    Except Err (ModelDef × BState) :=
  match schema with
  | .obj skvs =>
    match jsonGetD skvs "properties" (.obj []) with
    | .obj plist => do
      let fields ← buildFields root (jsonGetD skvs "required" (.arr [])) plist
      pure ((⟨name, fields⟩ : ModelDef), { st2 with
        registry := registryInsert st2.registry name (⟨name, fields⟩ : ModelDef),
        trace := st2.trace ++ [name] })
    | _ => throw .attributeError
  | _ => throw .attributeError


/-- Embedding of create_model_from_schema (lines 140-189) with an explicit
recursion bound.  The early return of lines 160-161 looks the name up in
the registry and raises AttributeError when the attribute was never set;
within one session that branch is unreachable because the defs loop guards
every recursive call on non-membership in created_models.  The name is
added to created_models before any recursion (line 164).  When the root
schema has a defs section its object-typed entries are built eagerly in
source order (lines 167-170); testing "$defs" in a non-dict root raises
TypeError, and indexing a non-dict root likewise.  Then properties and
required are read from the schema being built (lines 172-173, AttributeError
on a non-dict schema), the field table is assembled in source order, and the
created model is recorded in the registry and the trace (lines 186-188).
The recursion bound decreases at every nested call; the top-level wrapper
supplies one more than the number of defs entries, which suffices because
every nested call is made for a defs entry not yet in created_models and
immediately adds its name. -/
def create_model_from_schema : Nat → Json → String → Json → BState → Except Err (ModelDef × BState)
  | 0, _, _, _, _ => throw .outOfFuel
  | fuel + 1, schema, name, root, st =>
    if name ∈ st.created then
      match registryLookup st.registry name with
      | some m => pure (m, st)
      | none => throw .attributeError
    else do
      let st1 : BState := { st with created := name :: st.created }
      let hasDefs ← pyContains "$defs" root
      let st2 ←
        if hasDefs then
          match root with
          | .obj rkvs =>
            match jsonLookup rkvs "$defs" with
            | some (.obj defs) =>
              buildDefsList (fun sch nm s => create_model_from_schema fuel sch nm root s) defs st1
            | some _ => throw .attributeError
            | none => pure st1
          | _ => throw .typeError
        else pure st1
      match schema with
      | .obj skvs =>
        match jsonGetD skvs "properties" (.obj []) with
        | .obj plist => do
          let requiredJ := jsonGetD skvs "required" (.arr [])
          let fields ← buildFields root requiredJ plist
          let m : ModelDef := ⟨name, fields⟩
          pure (m, { st2 with
            registry := registryInsert st2.registry name m,
            trace := st2.trace ++ [name] })
        | _ => throw .attributeError
      | _ => throw .attributeError

/-- Number of defs entries of a schema, used for the recursion bound. -/
def defsCount (schema : Json) : Nat :=
  match schema with
  | .obj kvs =>
    match jsonLookup kvs "$defs" with
    | some (.obj defs) => defs.length
    | _ => 0
  | _ => 0

/-- Top-level entry point: create_model_from_schema(schema, name) with its
default arguments (root_schema is the schema itself, created_models fresh,
and the session-local view of the module namespace starting empty). -/
def create_model_top (schema : Json) (name : String) : Except Err (ModelDef × BState) :=
  create_model_from_schema (defsCount schema + 1) schema name schema ⟨[], [], []⟩

/-- Validation error kinds at construction time, from the spec taxonomy. -/
inductive VErr where
  | missingRequiredField (name : String)
deriving DecidableEq

/-- Modelled from the spec: the presence pass of construction-time validation
(ValidatingModel.construct, spec section 4.5), whose implementation in this
repository is delegated to the pydantic library and is therefore not under
src/.  For every declared field in order, a field with neither a supplied
value nor a default (the Ellipsis sentinel, modelled as none) contributes
exactly one MissingRequiredField violation; violations are collected across
all fields rather than aborting at the first. -/
def constructMissing : List (String × FieldInfo) → List (String × Json) → List VErr
  | [], _ => []
  | (fn, fi) :: rest, vals =>
    match jsonLookup vals fn with
    | some _ => constructMissing rest vals
    | none =>
      match fi.default with
      | some _ => constructMissing rest vals
      | none => .missingRequiredField fn :: constructMissing rest vals

/-- Modelled from the spec: the fill pass of construction, pairing each field
with the supplied value or, when absent, with its default. -/
def constructFill : List (String × FieldInfo) → List (String × Json) → List (String × Json)
  | [], _ => []
  | (fn, fi) :: rest, vals =>
    match jsonLookup vals fn with
    | some v => (fn, v) :: constructFill rest vals
    | none =>
      match fi.default with
      | some d => (fn, d) :: constructFill rest vals
      | none => constructFill rest vals

/-- Modelled from the spec: ValidatingModel.construct (spec section 4.5),
returning either the fully populated instance or the complete list of
violations.  Type conformance checking is beyond what the claims under
verification need and is not modelled. -/
def constructModel (m : ModelDef) (vals : List (String × Json)) :
    Except (List VErr) (List (String × Json)) :=
  match constructMissing m.fields vals with
  | [] => .ok (constructFill m.fields vals)
  | errs => .error errs

/-- The UnresolvedReference error kind of the spec: exactly the two ValueError
shapes resolve_ref raises (a non-local pointer, or a missing segment
reported with the keys available at that point). -/
def isUnresolvedReference : Err → Prop
  | .nonLocalRef _ => True
  | .missingKey _ _ => True
  | _ => False

/-- Specification-side characterization of a reference walk failing on a
missing segment: following the pointer segments through mappings from the
document root, some segment is absent from the mapping reached at that
point, exposing the offending segment and the keys available there.  This
is the formal reading of the phrase: some slash-separated segment is
missing from the mapping it is looked up in. -/
inductive MissingAt : Json → List String → String → List String → Prop where
  | here {kvs : List (String × Json)} {p : String} {rest : List String}
      (hnone : jsonLookup kvs p = none) :
      MissingAt (.obj kvs) (p :: rest) p (kvs.map Prod.fst)
  | there {kvs : List (String × Json)} {p0 : String} {v : Json} {rest : List String}
      {p : String} {ks : List String}
      (hfound : jsonLookup kvs p0 = some v) (htail : MissingAt v rest p ks) :
      MissingAt (.obj kvs) (p0 :: rest) p ks

/-- Specification-side reading of the anyOf rule, written from the words of
the claim: map each sub-schema independently in source order (mapping errors
propagate), drop every variant that mapped to the null primitive, collapse a
single remaining variant to itself and otherwise take the union of the
remaining variants in preserved order, and mark the overall field nullable
when null was among the variants instead of leaving null in the variant
list.  Nullability is expressed by joining with NoneType, the only
representation Python has for an optional type; when every variant was null
the nullable field type is NoneType itself, and an anyOf with no variants at
all leaves an empty union, which Python rejects. -/
def specAnyOf (ts : List PyType) : Except Err PyType :=
  let remaining := ts.filter (fun u => !(isPNone u))
  if ts.any isPNone then
    match remaining with
    | [] => pure PyType.pnone
    | [t0] => do
      let base ← pure t0
      mkUnion [base, PyType.pnone]
    | more => do
      let base ← mkUnion more
      mkUnion [base, PyType.pnone]
  else
    match remaining with
    | [t0] => pure t0
    | more => mkUnion more

/-- Well-formedness of a union value as Python produces it: a typing.Union
object always has at least two members and its members are never themselves
unions (typing flattens on construction).  Every type object get_field_type
returns satisfies this (theorem getFT_ok_flat), and the property only
constrains the top constructor. -/
def unionFlat : PyType → Bool
  | .union us =>
    !us.isEmpty && us.all (fun u => match u with | .union _ => false | _ => true)
  | _ => true

/-- Pairwise distinctness under Python type equality, the shape of a
deduplicated member list. -/
def pyDistinct (L : List PyType) : Prop :=
  List.Pairwise (fun a b => beqPy a b = false) L

/-- Session-state invariant for create_model_from_schema: the module registry
holds exactly the traced names in build order, and every traced name is in
created_models. -/
def BStateOK (st : BState) : Prop :=
  st.registry.map Prod.fst = st.trace ∧ ∀ x ∈ st.trace, x ∈ st.created

/-- Step relation of one builder call: created_models only grows, and the
trace is extended by a duplicate-free block of names none of which was in
created_models beforehand (so no name is ever built twice). -/
def BProgress (st st2 : BState) : Prop :=
  (∀ x ∈ st.created, x ∈ st2.created) ∧
  ∃ ns, st2.trace = st.trace ++ ns ∧ ns.Nodup ∧ ∀ x ∈ ns, ¬ x ∈ st.created

/-- Positivity of jsonSize. -/
theorem jsonSize_pos (t : Json) : 1 ≤ jsonSize t := by
  cases t <;> simp [jsonSize]

/-- Size bound for values found by dict lookup, used to justify the recursion
bound of get_field_type. -/
theorem jsonLookup_size {kvs : List (String × Json)} {k : String} {v : Json}
    (h : jsonLookup kvs k = some v) : jsonSize v < jsonSizeKV kvs + 1 := by
  induction kvs with
  | nil => simp [jsonLookup] at h
  | cons p rest ih =>
    obtain ⟨k1, v1⟩ := p
    by_cases hk : k1 = k
    · simp [jsonLookup, hk] at h
      subst h
      simp [jsonSizeKV]
      omega
    · simp [jsonLookup, hk] at h
      have := ih h
      simp [jsonSizeKV]
      omega

/-- Size bound for list elements. -/
theorem jsonSizeList_mem {xs : List Json} {x : Json} (h : x ∈ xs) :
    jsonSize x ≤ jsonSizeList xs := by
  induction xs with
  | nil => cases h
  | cons a rest ih =>
    cases h with
    | head => simp [jsonSizeList]
    | tail _ hmem =>
      have := ih hmem
      simp [jsonSizeList]
      omega

/-- Congruence for mapExcept. -/
theorem mapExcept_congr {α β : Type} {f g : α → Except Err β} :
    ∀ (l : List α), (∀ x ∈ l, f x = g x) → mapExcept f l = mapExcept g l := by
  intro l
  induction l with
  | nil => intro _; rfl
  | cons a rest ih =>
    intro h
    simp only [mapExcept]
    rw [h a (by simp), ih (fun x hx => h x (by simp [hx]))]

/-- Fuel irrelevance: any fuel at least jsonSize of the fragment computes the
same result as the canonical bound used by get_field_type, so the wrapper is
a faithful total embedding of the recursive Python function and the
outOfFuel marker is unreachable from it. -/
theorem getFT_irrel : ∀ (fuel : Nat) (root t : Json), jsonSize t ≤ fuel →
    getFT fuel root t = get_field_type root t := by
  intro fuel
  induction fuel using Nat.strong_induction_on with
  | _ fuel ih =>
    intro root t hle
    match fuel with
    | 0 => exact absurd (le_trans (jsonSize_pos t) hle) (by omega)
    | f + 1 =>
      unfold get_field_type
      cases t with
      | null => rfl
      | bool b => rfl
      | num n => rfl
      | str s => rfl
      | arr xs => rfl
      | obj kvs =>
        have hkvs : jsonSizeKV kvs ≤ f := by simp [jsonSize] at hle; omega
        show getFT (f + 1) root (Json.obj kvs) = getFT (jsonSizeKV kvs + 1) root (Json.obj kvs)
        simp only [getFT]
        cases h1 : jsonLookup kvs "$ref" with
        | some v => cases v <;> rfl
        | none =>
          cases h2 : jsonLookup kvs "enum" with
          | some v => rfl
          | none =>
            cases h3 : jsonLookup kvs "anyOf" with
            | some v =>
              cases v with
              | arr xs =>
                have hxs : jsonSizeList xs < jsonSizeKV kvs := by
                  have := jsonLookup_size h3
                  simp [jsonSize] at this
                  omega
                have hmap : mapExcept (getFT f root) xs
                    = mapExcept (getFT (jsonSizeKV kvs) root) xs := by
                  apply mapExcept_congr
                  intro x hx
                  have hxle := jsonSizeList_mem hx
                  rw [ih f (by omega) root x (by omega),
                    ih (jsonSizeKV kvs) (by omega) root x (by omega)]
                simp only [hmap]
              | null => rfl
              | bool b => rfl
              | num n => rfl
              | str s => rfl
              | obj o => rfl
            | none =>
              cases h4 : jsonLookup kvs "type" with
              | none => rfl
              | some tv =>
                cases tv with
                | str tn =>
                  dsimp only
                  by_cases ha : tn = "array"
                  · rw [if_pos ha, if_pos ha]
                    cases h5 : jsonLookup kvs "items" with
                    | some it =>
                      have := jsonLookup_size h5
                      dsimp only
                      rw [ih f (by omega) root it (by omega),
                        ih (jsonSizeKV kvs) (by omega) root it (by omega)]
                    | none => rfl
                  · by_cases hb : tn = "object"
                    · rw [if_neg ha, if_neg ha, if_pos hb, if_pos hb]
                      cases h6 : jsonLookup kvs "additionalProperties" with
                      | some ap =>
                        have hap := jsonLookup_size h6
                        cases ap with
                        | bool b => rfl
                        | null =>
                          dsimp only
                          rw [ih f (by omega) root .null (by omega),
                            ih (jsonSizeKV kvs) (by omega) root .null (by omega)]
                        | num n =>
                          dsimp only
                          rw [ih f (by omega) root (.num n) (by omega),
                            ih (jsonSizeKV kvs) (by omega) root (.num n) (by omega)]
                        | str s =>
                          dsimp only
                          rw [ih f (by omega) root (.str s) (by omega),
                            ih (jsonSizeKV kvs) (by omega) root (.str s) (by omega)]
                        | arr xs2 =>
                          dsimp only
                          rw [ih f (by omega) root (.arr xs2) (by omega),
                            ih (jsonSizeKV kvs) (by omega) root (.arr xs2) (by omega)]
                        | obj o2 =>
                          dsimp only
                          rw [ih f (by omega) root (.obj o2) (by omega),
                            ih (jsonSizeKV kvs) (by omega) root (.obj o2) (by omega)]
                      | none => rfl
                    · rw [if_neg ha, if_neg ha, if_neg hb, if_neg hb]
                | null => rfl
                | bool b => rfl
                | num n => rfl
                | arr a2 => rfl
                | obj o2 => rfl

/-- Relation between the Python membership test on a dict and lookup. -/
theorem lookup_isSome_eq_any (kvs : List (String × Json)) (key : String) :
    (jsonLookup kvs key).isSome = kvs.any (fun p => p.1 == key) := by
  induction kvs with
  | nil => rfl
  | cons p rest ih =>
    obtain ⟨k1, v1⟩ := p
    by_cases hk : k1 = key
    · simp [jsonLookup, hk]
    · simp [jsonLookup, hk, ih]

/-- Fresh-key case of dict insertion. -/
theorem dictInsert_fresh (d : List (String × Json)) (k : String) (v : Json)
    (h : ∀ p ∈ d, p.1 ≠ k) : dictInsert d k v = d ++ [(k, v)] := by
  unfold dictInsert
  have hfalse : d.any (fun p => p.1 == k) = false := by
    simp only [List.any_eq_false]
    intro p hp
    simpa using h p hp
  rw [if_neg (by simp [hfalse])]

/-- The enum member fold on collision-free values appends one entry per value
in source order. -/
theorem enum_fold_nodup : ∀ (vs : List Json) (acc : List (String × Json)),
    (∀ v ∈ vs, ∀ p ∈ acc, p.1 ≠ pyStr v) → (vs.map pyStr).Nodup →
    vs.foldl (fun d v => dictInsert d (pyStr v) v) acc
      = acc ++ vs.map (fun v => (pyStr v, v)) := by
  intro vs
  induction vs with
  | nil => intro acc _ _; simp
  | cons v rest ih =>
    intro acc hfresh hnodup
    have hstep : dictInsert acc (pyStr v) v = acc ++ [(pyStr v, v)] :=
      dictInsert_fresh acc (pyStr v) v (hfresh v (by simp))
    have hnd := hnodup
    simp only [List.map_cons, List.nodup_cons] at hnd
    have htail : (rest.map pyStr).Nodup := hnd.2
    have hnotin : pyStr v ∉ rest.map pyStr := hnd.1
    simp only [List.foldl_cons, hstep]
    rw [ih (acc ++ [(pyStr v, v)])]
    · simp
    · intro w hw p hp
      rcases List.mem_append.mp hp with hpa | hpv
      · exact hfresh w (by simp [hw]) p hpa
      · simp only [List.mem_singleton] at hpv
        subst hpv
        intro hcontra
        have heq : pyStr v = pyStr w := hcontra
        rw [heq] at hnotin
        exact hnotin (List.mem_map_of_mem pyStr hw)
    · exact htail

/-- C10: for every schema fragment that is not a mapping (for example a
boolean used as a schema, as when a boolean items or additionalProperties
value is recursed into), get_field_type totally returns the untyped Any
field type and never raises (lines 86-87). -/
theorem C10_nondict_maps_to_any (root j : Json) (h : ∀ kvs, j ≠ Json.obj kvs) :
    get_field_type root j = .ok .pAny := by
  cases j with
  | obj kvs => exact absurd rfl (h kvs)
  | null => rfl
  | bool b => rfl
  | num n => rfl
  | str s => rfl
  | arr xs => rfl

/-- Witness for C10 at the concrete non-mapping fragment true (a boolean used
as a schema). -/
theorem C10_nondict_maps_to_any_witness :
    (∀ kvs, Json.bool true ≠ Json.obj kvs)
    ∧ get_field_type .null (.bool true) = .ok .pAny :=
  ⟨fun _ h => Json.noConfusion h,
    C10_nondict_maps_to_any .null (.bool true) (fun _ h => Json.noConfusion h)⟩

/-- C9 counterexample: a $ref whose resolved fragment is not a mapping (here
the number 5) raises AttributeError at the .get call of line 92 instead of
yielding a named-model field type with the placeholder name, so the claim
as stated fails. -/
theorem C9_counterexample :
    get_field_type (.obj [("$defs", .obj [("A", .num 5)])])
      (.obj [("$ref", .str "#/$defs/A")]) = .error .attributeError := rfl

/-- C9 (amended): for every schema fragment containing a string-valued $ref,
the mapper resolves the pointer against the document root and yields the
forward-reference field type named by the resolved fragment title, with the
synthetic placeholder UntitledModel when the mapping carries no title;
resolution errors propagate, and a resolved fragment that is not a mapping
raises AttributeError (the correction).  The equation holds for every
fragment containing $ref whatever other keys (enum, anyOf, type) it also
contains, which is the priority statement. -/
theorem C9_ref_rule (root : Json) (kvs : List (String × Json)) (r : String)
    (href : jsonLookup kvs "$ref" = some (.str r)) :
    get_field_type root (.obj kvs) =
      match resolve_ref root r with
      | .ok (.obj fkvs) => .ok (.forwardRef (jsonGetD fkvs "title" (.str "UntitledModel")))
      | .ok _ => .error .attributeError
      | .error e => .error e := by
  show getFT (jsonSizeKV kvs + 1) root (.obj kvs) = _
  simp only [getFT, href]
  cases hres : resolve_ref root r with
  | ok frag => cases frag <;> rfl
  | error e => rfl

/-- Witness for C9 on a fragment carrying both $ref and enum: the reference
wins and resolves to the title of the referenced definition. -/
theorem C9_ref_rule_witness :
    jsonLookup [("enum", Json.arr [Json.str "x"]), ("$ref", Json.str "#/$defs/A")] "$ref"
      = some (.str "#/$defs/A")
    ∧ get_field_type (.obj [("$defs", .obj [("A", .obj [("title", .str "A")])])])
        (.obj [("enum", .arr [.str "x"]), ("$ref", .str "#/$defs/A")])
      = .ok (.forwardRef (.str "A")) := by
  refine ⟨rfl, ?_⟩
  have h := C9_ref_rule (.obj [("$defs", .obj [("A", .obj [("title", .str "A")])])])
    [("enum", .arr [.str "x"]), ("$ref", .str "#/$defs/A")] "#/$defs/A" rfl
  exact h.trans rfl

/-- C5 counterexample: an object schema with additionalProperties false maps
to the open map of any (dict[str, Any], lines 127-128 treat both booleans
alike), not to a closed map type, so the claim as stated fails. -/
theorem C5_counterexample :
    get_field_type .null (.obj [("type", .str "object"), ("additionalProperties", .bool false)])
      = .ok (.pdict .pstr .pAny) := rfl

/-- C5 (amended): for every schema fragment with type object reaching the
type mapper (no $ref, enum or anyOf key), a schema-valued
additionalProperties yields a map from string to the mapped value type, a
boolean additionalProperties of either polarity and an absent one yield the
open map of any: boolean false is not distinguished (the correction — no
closed map type exists in the code). -/
theorem C5_object_mapping (root : Json) (kvs : List (String × Json))
    (href : jsonLookup kvs "$ref" = none) (henum : jsonLookup kvs "enum" = none)
    (hany : jsonLookup kvs "anyOf" = none)
    (htype : jsonLookup kvs "type" = some (.str "object")) :
    (jsonLookup kvs "additionalProperties" = none →
      get_field_type root (.obj kvs) = .ok (.pdict .pstr .pAny))
    ∧ (∀ b, jsonLookup kvs "additionalProperties" = some (.bool b) →
      get_field_type root (.obj kvs) = .ok (.pdict .pstr .pAny))
    ∧ (∀ ap, jsonLookup kvs "additionalProperties" = some ap → (∀ b, ap ≠ .bool b) →
      get_field_type root (.obj kvs)
        = (get_field_type root ap).map (fun vt => .pdict .pstr vt)) := by
  refine ⟨?_, ?_, ?_⟩
  · intro hap
    show getFT (jsonSizeKV kvs + 1) root (.obj kvs) = _
    simp only [getFT, href, henum, hany, htype, hap]
    rfl
  · intro b hap
    show getFT (jsonSizeKV kvs + 1) root (.obj kvs) = _
    simp only [getFT, href, henum, hany, htype, hap]
    rfl
  · intro ap hap hnb
    have hle : jsonSize ap ≤ jsonSizeKV kvs := by
      have := jsonLookup_size hap
      omega
    show getFT (jsonSizeKV kvs + 1) root (.obj kvs) = _
    simp only [getFT, href, henum, hany, htype, hap]
    cases ap with
    | bool b => exact absurd rfl (hnb b)
    | null =>
      rw [getFT_irrel (jsonSizeKV kvs) root .null hle]
      rfl
    | num n =>
      rw [getFT_irrel (jsonSizeKV kvs) root (.num n) hle]
      rfl
    | str s =>
      rw [getFT_irrel (jsonSizeKV kvs) root (.str s) hle]
      rfl
    | arr xs =>
      rw [getFT_irrel (jsonSizeKV kvs) root (.arr xs) hle]
      rfl
    | obj o =>
      rw [getFT_irrel (jsonSizeKV kvs) root (.obj o) hle]
      rfl

/-- Witness for C5 at the spec example: an integer-valued additionalProperties
schema maps to an integer-valued map. -/
theorem C5_object_mapping_witness :
    jsonLookup [("type", Json.str "object"),
        ("additionalProperties", Json.obj [("type", Json.str "integer")])]
        "additionalProperties" = some (.obj [("type", .str "integer")])
    ∧ get_field_type .null (.obj [("type", .str "object"),
        ("additionalProperties", .obj [("type", .str "integer")])])
      = .ok (.pdict .pstr .pint) := by
  refine ⟨rfl, ?_⟩
  have h := (C5_object_mapping .null
    [("type", .str "object"), ("additionalProperties", .obj [("type", .str "integer")])]
    rfl rfl rfl rfl).2.2 (.obj [("type", .str "integer")]) rfl
    (fun b hb => Json.noConfusion hb)
  exact h.trans rfl

/-- C8 counterexample: an object schema whose additionalProperties value is
the string weird (neither boolean nor mapping) maps to the any-valued open
map rather than failing the build, so the claim as stated fails. -/
theorem C8_counterexample :
    get_field_type .null (.obj [("type", .str "object"), ("additionalProperties", .str "weird")])
      = .ok (.pdict .pstr .pAny) := rfl

/-- C8 (amended): for every object schema (no $ref, enum or anyOf key) whose
additionalProperties value is neither a boolean nor a mapping, the build
does not fail: the value itself is passed back through the mapper, a
non-mapping maps to Any (lines 86-87), and the field type falls back to the
any-typed open map dict[str, Any].  No UnsupportedSchemaConstruct error
exists in the code. -/
theorem C8_weird_additional_props (root : Json) (kvs : List (String × Json)) (ap : Json)
    (href : jsonLookup kvs "$ref" = none) (henum : jsonLookup kvs "enum" = none)
    (hany : jsonLookup kvs "anyOf" = none)
    (htype : jsonLookup kvs "type" = some (.str "object"))
    (hap : jsonLookup kvs "additionalProperties" = some ap)
    (hnb : ∀ b, ap ≠ .bool b) (hno : ∀ o, ap ≠ .obj o) :
    get_field_type root (.obj kvs) = .ok (.pdict .pstr .pAny) := by
  have h := (C5_object_mapping root kvs href henum hany htype).2.2 ap hap hnb
  rw [h]
  cases ap with
  | bool b => exact absurd rfl (hnb b)
  | obj o => exact absurd rfl (hno o)
  | null => rfl
  | num n => rfl
  | str s => rfl
  | arr xs => rfl

/-- Witness for C8 at the concrete input: additionalProperties weird. -/
theorem C8_weird_additional_props_witness :
    jsonLookup [("type", Json.str "object"), ("additionalProperties", Json.num 7)]
      "additionalProperties" = some (.num 7)
    ∧ get_field_type .null (.obj [("type", .str "object"), ("additionalProperties", .num 7)])
      = .ok (.pdict .pstr .pAny) :=
  ⟨rfl, C8_weird_additional_props .null
    [("type", .str "object"), ("additionalProperties", .num 7)] (.num 7)
    rfl rfl rfl rfl rfl (fun b h => Json.noConfusion h) (fun o h => Json.noConfusion h)⟩

/-- C7 counterexample: the enum values 1 and the string 1 derive the same
member identifier, and the build does not fail: the dict comprehension at
line 97 silently collapses them into a single member holding the last
value, so the claim that a NamingCollision aborts the build fails. -/
theorem C7_counterexample :
    get_field_type .null (.obj [("enum", .arr [.num 1, .str "1"])])
      = .ok (.enumType ("Enum_" ++ toString (pyHash (pyStr (.arr [.num 1, .str "1"]))))
          [("1", .str "1")]) := rfl

/-- A name that does not begin with an underscore is not sunder. -/
theorem pyIsSunder_plain (k : String) (h : ¬ k.data.head? = some '_') :
    pyIsSunder k = false := by
  unfold pyIsSunder
  rw [decide_eq_false h]
  simp

/-- A name that does not begin with an underscore is not dunder. -/
theorem pyIsDunder_plain (k : String) (h : ¬ k.data.head? = some '_') :
    pyIsDunder k = false := by
  have h2 : ¬ k.data.take 2 = ['_', '_'] := by
    intro he
    cases hd : k.data with
    | nil => rw [hd] at he; exact List.noConfusion he
    | cons c rest =>
      rw [hd] at he
      have he2 : c :: rest.take 1 = ['_', '_'] := he
      injection he2 with hc ht
      exact h (by rw [hd, hc]; rfl)
  unfold pyIsDunder
  rw [decide_eq_false h2]
  simp

/-- A name that does not begin with an underscore is not private. -/
theorem pyIsPrivate_plain (cls k : String) (h : ¬ k.data.head? = some '_') :
    pyIsPrivate cls k = false := by
  have h2 : ¬ k.data.take ("_" ++ cls ++ "__").data.length = ("_" ++ cls ++ "__").data := by
    intro he
    have hpat : ("_" ++ cls ++ "__").data = '_' :: (cls ++ "__").data := rfl
    cases hd : k.data with
    | nil =>
      rw [hd, hpat] at he
      rw [List.take_nil] at he
      exact List.noConfusion he
    | cons c rest =>
      rw [hd, hpat] at he
      have he2 : c :: rest.take ((cls ++ "__").data.length) = '_' :: (cls ++ "__").data := he
      injection he2 with hc ht
      exact h (by rw [hd, hc]; rfl)
  unfold pyIsPrivate
  rw [decide_eq_false h2]
  simp

/-- Keys that do not begin with an underscore pass the Enum name scan as
plain members, in order, with no order setting. -/
theorem enum_plain_keys (cls : String) : ∀ (d : List (String × Json)),
    (∀ p ∈ d, ¬ p.1.data.head? = some '_') →
    pyEnumScan cls d = .ok (d, false)
  | [], _ => rfl
  | (k, v) :: rest, h => by
    have hk : ¬ k.data.head? = some '_' := h (k, v) (List.mem_cons_self _ _)
    have hpriv := pyIsPrivate_plain cls k hk
    have hsun := pyIsSunder_plain k hk
    have hdun := pyIsDunder_plain k hk
    have hrest := enum_plain_keys cls rest (fun q hq => h q (List.mem_cons_of_mem _ hq))
    unfold pyEnumScan
    rw [hpriv, hsun, hdun, hrest]
    rfl

/-- C7 (amended): for every schema fragment containing an enum list (and no
$ref), the member mapping is derived by a dict comprehension keyed on the
string form of each value; two distinct values with the same derived
identifier are silently collapsed (the shared key keeps its first position
and the last value wins, with no error).  For enums whose derived
identifiers are ordinary names — not beginning with an underscore, not
empty and not mro — the build succeeds with the Enum class over that
mapping, one member per value in source order when the identifiers are
distinct.  Identifiers outside that range follow Python Enum name rules at
line 98 rather than becoming members: a reserved sunder name such as the
enum value _a_ raises ValueError. -/
theorem C7_enum_members (root : Json) (kvs : List (String × Json)) (vs : List Json)
    (href : jsonLookup kvs "$ref" = none)
    (henum : jsonLookup kvs "enum" = some (.arr vs))
    (hplain : ∀ p ∈ vs.foldl (fun d v => dictInsert d (pyStr v) v) [],
      ¬ p.1.data.head? = some '_' ∧ p.1 ≠ "" ∧ p.1 ≠ "mro") :
    get_field_type root (.obj kvs)
      = .ok (.enumType ("Enum_" ++ toString (pyHash (pyStr (.arr vs))))
          (vs.foldl (fun d v => dictInsert d (pyStr v) v) []))
    ∧ ((vs.map pyStr).Nodup →
        vs.foldl (fun d v => dictInsert d (pyStr v) v) []
          = vs.map (fun v => (pyStr v, v)))
    ∧ (∀ v1 v2 : Json, pyStr v1 = pyStr v2 →
        [v1, v2].foldl (fun d v => dictInsert d (pyStr v) v) []
          = [(pyStr v1, v2)])
    ∧ get_field_type .null (.obj [("enum", .arr [.str "_a_"])]) = .error .valueError := by
  refine ⟨?_, ?_, ?_, rfl⟩
  · show getFT (jsonSizeKV kvs + 1) root (.obj kvs) = _
    simp only [getFT, href, henum]
    show pyEnumCreate ("Enum_" ++ toString (pyHash (pyStr (Json.arr vs))))
      (vs.foldl (fun d v => dictInsert d (pyStr v) v) []) = _
    have hscan := enum_plain_keys ("Enum_" ++ toString (pyHash (pyStr (Json.arr vs))))
      (vs.foldl (fun d v => dictInsert d (pyStr v) v) [])
      (fun p hp => (hplain p hp).1)
    unfold pyEnumCreate
    rw [hscan]
    have hany : ((vs.foldl (fun d v => dictInsert d (pyStr v) v) []).any
        (fun q => q.1 == "" || q.1 == "mro")) = false := by
      cases ha : ((vs.foldl (fun d v => dictInsert d (pyStr v) v) []).any
          (fun q => q.1 == "" || q.1 == "mro")) with
      | false => rfl
      | true =>
        obtain ⟨q, hq, hqp⟩ := List.any_eq_true.mp ha
        obtain ⟨_, h2, h3⟩ := hplain q hq
        rw [beq_eq_false_iff_ne.mpr h2, beq_eq_false_iff_ne.mpr h3] at hqp
        exact Bool.noConfusion hqp
    show (if ((vs.foldl (fun d v => dictInsert d (pyStr v) v) []).any
        (fun q => q.1 == "" || q.1 == "mro")) = true then throw Err.valueError
      else if false = true then throw Err.typeError
      else pure (PyType.enumType ("Enum_" ++ toString (pyHash (pyStr (Json.arr vs))))
        (vs.foldl (fun d v => dictInsert d (pyStr v) v) []))) = _
    rw [hany]
    rfl
  · intro hnodup
    have h := enum_fold_nodup vs [] (fun v _ p hp => absurd hp (List.not_mem_nil p)) hnodup
    simpa using h
  · intro v1 v2 heq
    simp only [List.foldl_cons, List.foldl_nil]
    have h1 : dictInsert [] (pyStr v1) v1 = [(pyStr v1, v1)] := rfl
    rw [h1]
    unfold dictInsert
    rw [if_pos]
    · simp [← heq]
    · simp [← heq]

/-- Witness for C7 at the spec example enum a, b, c: ordinary distinct
identifiers, three members in source order. -/
theorem C7_enum_members_witness :
    (∀ p ∈ ([Json.str "a", Json.str "b", Json.str "c"].foldl
        (fun d v => dictInsert d (pyStr v) v) []),
      ¬ p.1.data.head? = some '_' ∧ p.1 ≠ "" ∧ p.1 ≠ "mro")
    ∧ ((([Json.str "a", Json.str "b", Json.str "c"].map pyStr)).Nodup)
    ∧ get_field_type .null (.obj [("enum", .arr [.str "a", .str "b", .str "c"])])
      = .ok (.enumType
          ("Enum_" ++ toString (pyHash (pyStr (.arr [.str "a", .str "b", .str "c"]))))
          [("a", .str "a"), ("b", .str "b"), ("c", .str "c")]) := by
  refine ⟨by decide, by simp [pyStr], ?_⟩
  have h := (C7_enum_members .null [("enum", .arr [.str "a", .str "b", .str "c"])]
    [.str "a", .str "b", .str "c"] rfl rfl (by decide)).1
  exact h.trans rfl

/-- The walk of resolve_ref raises the missing-segment ValueError exactly at
the walks characterized by MissingAt: a missing-segment failure can arise
only from a mapping lacking the segment, and then it reports that segment
together with the keys available there.  A walk stepping into a non-mapping
fails differently (TypeError on indexing after a successful membership
test, AttributeError on the keys call while formatting the message). -/
theorem resolveSteps_missing_iff :
    ∀ (path : List String) (cur : Json) (p : String) (ks : List String),
      resolveSteps cur path = .error (.missingKey p ks) ↔ MissingAt cur path p ks := by
  intro path
  induction path with
  | nil =>
    intro cur p ks
    constructor
    · intro h
      exact absurd h (by intro hcontra; cases hcontra)
    · intro h
      nomatch h
  | cons part rest ih =>
    intro cur p ks
    cases cur with
    | null =>
      constructor
      · intro h
        rw [show resolveSteps .null (part :: rest) = Except.error Err.typeError from rfl] at h
        simp at h
      · intro h
        nomatch h
    | bool b =>
      constructor
      · intro h
        rw [show resolveSteps (.bool b) (part :: rest) = Except.error Err.typeError from rfl] at h
        simp at h
      · intro h
        nomatch h
    | num n =>
      constructor
      · intro h
        rw [show resolveSteps (.num n) (part :: rest) = Except.error Err.typeError from rfl] at h
        simp at h
      · intro h
        nomatch h
    | str s =>
      constructor
      · intro h
        rw [show resolveSteps (.str s) (part :: rest)
            = (if charInfix part.data s.data = true then Except.error Err.typeError
               else Except.error Err.attributeError) from rfl] at h
        cases hc : charInfix part.data s.data <;> rw [hc] at h <;> simp at h
      · intro h
        nomatch h
    | arr xs =>
      constructor
      · intro h
        rw [show resolveSteps (.arr xs) (part :: rest)
            = (if (xs.any fun x => match x with | .str t => t == part | _ => false) = true
               then Except.error Err.typeError
               else Except.error Err.attributeError) from rfl] at h
        cases hc : (xs.any fun x => match x with | .str t => t == part | _ => false)
          <;> rw [hc] at h <;> simp at h
      · intro h
        nomatch h
    | obj kvs =>
      have hred : resolveSteps (.obj kvs) (part :: rest)
          = (if (kvs.any fun q => q.1 == part) = true then
              (match jsonLookup kvs part with
               | some v => resolveSteps v rest
               | none => Except.error Err.typeError)
             else Except.error (Err.missingKey part (kvs.map Prod.fst))) := rfl
      cases hany : kvs.any (fun q => q.1 == part) with
      | true =>
        have hsome : (jsonLookup kvs part).isSome = true := by
          rw [lookup_isSome_eq_any, hany]
        obtain ⟨v, hv⟩ := Option.isSome_iff_exists.mp hsome
        constructor
        · intro h
          rw [hred, hany] at h
          simp only [if_true, hv] at h
          exact MissingAt.there hv ((ih v p ks).mp h)
        · intro h
          cases h with
          | here hnone => rw [hnone] at hv; cases hv
          | there hfound htail =>
            rw [hv] at hfound
            injection hfound with hveq
            subst hveq
            rw [hred, hany]
            simp only [if_true, hv]
            exact (ih v p ks).mpr htail
      | false =>
        have hnone : jsonLookup kvs part = none := by
          have hiso := lookup_isSome_eq_any kvs part
          rw [hany] at hiso
          exact Option.not_isSome_iff_eq_none.mp (by simp [hiso])
        constructor
        · intro h
          rw [hred, hany] at h
          simp only [Bool.false_eq_true, if_false] at h
          injection h with herr
          injection herr with hp hks
          subst hp
          subst hks
          exact MissingAt.here hnone
        · intro h
          cases h with
          | here hmiss =>
            rw [hred, hany]
            simp
          | there hfound htail => rw [hnone] at hfound; cases hfound

/-- The walk of resolve_ref never raises the non-local-pointer error: that
error arises only from the startswith test before the walk. -/
theorem resolveSteps_ne_nonLocal :
    ∀ (path : List String) (cur : Json) (r2 : String),
      resolveSteps cur path ≠ .error (.nonLocalRef r2) := by
  intro path
  induction path with
  | nil =>
    intro cur r2 h
    cases h
  | cons part rest ih =>
    intro cur r2 h
    cases cur with
    | null =>
      rw [show resolveSteps .null (part :: rest) = Except.error Err.typeError from rfl] at h
      simp at h
    | bool b =>
      rw [show resolveSteps (.bool b) (part :: rest) = Except.error Err.typeError from rfl] at h
      simp at h
    | num n =>
      rw [show resolveSteps (.num n) (part :: rest) = Except.error Err.typeError from rfl] at h
      simp at h
    | str s =>
      rw [show resolveSteps (.str s) (part :: rest)
          = (if charInfix part.data s.data = true then Except.error Err.typeError
             else Except.error Err.attributeError) from rfl] at h
      cases hc : charInfix part.data s.data <;> rw [hc] at h <;> simp at h
    | arr xs =>
      rw [show resolveSteps (.arr xs) (part :: rest)
          = (if (xs.any fun x => match x with | .str t => t == part | _ => false) = true
             then Except.error Err.typeError
             else Except.error Err.attributeError) from rfl] at h
      cases hc : (xs.any fun x => match x with | .str t => t == part | _ => false)
        <;> rw [hc] at h <;> simp at h
    | obj kvs =>
      have hred : resolveSteps (.obj kvs) (part :: rest)
          = (if (kvs.any fun q => q.1 == part) = true then
              (match jsonLookup kvs part with
               | some v => resolveSteps v rest
               | none => Except.error Err.typeError)
             else Except.error (Err.missingKey part (kvs.map Prod.fst))) := rfl
      rw [hred] at h
      cases hany : kvs.any (fun q => q.1 == part) with
      | true =>
        rw [hany] at h
        simp only [if_true] at h
        cases hv : jsonLookup kvs part with
        | some v =>
          rw [hv] at h
          exact ih v r2 h
        | none => rw [hv] at h; simp at h
      | false =>
        rw [hany] at h
        simp at h

/-- C6: reference resolution fails with the UnresolvedReference kind exactly
when the pointer does not start with the local-fragment marker (then the
non-local ValueError names the pointer) or some slash-separated segment is
missing from the mapping it is looked up in (then the ValueError carries the
offending segment and the keys available at that point, which is the
MissingAt characterization); a local pointer never produces the non-local
error, and the concrete reference missing from an existing defs section
aborts the whole build naming the missing segment. -/
theorem C6_unresolved_reference (root : Json) (ref : String) :
    (pyStartsWith ref "#/" = false → resolve_ref root ref = .error (.nonLocalRef ref))
    ∧ (pyStartsWith ref "#/" = true →
        ∀ p ks, resolve_ref root ref = .error (.missingKey p ks)
          ↔ MissingAt root (refParts ref) p ks)
    ∧ (pyStartsWith ref "#/" = true →
        ∀ r2, resolve_ref root ref ≠ .error (.nonLocalRef r2))
    ∧ create_model_top (.obj [("type", .str "object"),
        ("properties", .obj [("x", .obj [("$ref", .str "#/$defs/Missing")])]),
        ("$defs", .obj [("Other", .obj [])])]) "Tool"
      = .error (.missingKey "Missing" ["Other"]) := by
  refine ⟨?_, ?_, ?_, ?_⟩
  · intro h
    unfold resolve_ref
    rw [if_neg (by simp [h])]
    rfl
  · intro h p ks
    unfold resolve_ref
    rw [if_pos h]
    exact resolveSteps_missing_iff (refParts ref) root p ks
  · intro h r2
    unfold resolve_ref
    rw [if_pos h]
    exact resolveSteps_ne_nonLocal (refParts ref) root r2
  · rfl

/-- Witness for C6 at the spec example: the missing-segment error surfaces
for the reference to a missing defs entry, and the MissingAt derivation is
recovered through the equivalence. -/
theorem C6_unresolved_reference_witness :
    pyStartsWith "#/$defs/Missing" "#/" = true
    ∧ resolve_ref (.obj [("$defs", .obj [("Other", .obj [])])]) "#/$defs/Missing"
      = .error (.missingKey "Missing" ["Other"])
    ∧ MissingAt (.obj [("$defs", .obj [("Other", .obj [])])])
        (refParts "#/$defs/Missing") "Missing" ["Other"] := by
  refine ⟨rfl, rfl, ?_⟩
  exact ((C6_unresolved_reference (.obj [("$defs", .obj [("Other", .obj [])])])
    "#/$defs/Missing").2.1 rfl "Missing" ["Other"]).mp rfl

/-- Deduplication distributes over append through its accumulator. -/
theorem dedupAux_append (X : List PyType) :
    ∀ (Y : List PyType) (acc : List PyType),
      dedupAux acc (X ++ Y) = dedupAux (dedupAux acc X) Y := by
  induction X with
  | nil => intro Y acc; rfl
  | cons t rest ih =>
    intro Y acc
    simp only [List.cons_append, dedupAux]
    by_cases hg : acc.any (fun u => beqPy u t) = true
    · rw [if_pos hg, if_pos hg]
      exact ih Y acc
    · rw [if_neg hg, if_neg hg]
      exact ih Y (acc ++ [t])

/-- Deduplication of a nonempty input is nonempty. -/
theorem dedupAux_eq_nil :
    ∀ (L acc : List PyType), dedupAux acc L = [] → acc = [] ∧ L = [] := by
  intro L
  induction L with
  | nil => intro acc h; exact ⟨h, rfl⟩
  | cons t rest ih =>
    intro acc h
    simp only [dedupAux] at h
    by_cases hg : acc.any (fun u => beqPy u t) = true
    · rw [if_pos hg] at h
      obtain ⟨hacc, _⟩ := ih acc h
      subst hacc
      simp at hg
    · rw [if_neg hg] at h
      obtain ⟨hacc, _⟩ := ih (acc ++ [t]) h
      simp at hacc

/-- Every deduplicated element comes from the accumulator or the input. -/
theorem dedupAux_mem :
    ∀ (L acc : List PyType) (x : PyType), x ∈ dedupAux acc L → x ∈ acc ∨ x ∈ L := by
  intro L
  induction L with
  | nil => intro acc x h; exact Or.inl h
  | cons t rest ih =>
    intro acc x h
    simp only [dedupAux] at h
    by_cases hg : acc.any (fun u => beqPy u t) = true
    · rw [if_pos hg] at h
      rcases ih acc x h with ha | hr
      · exact Or.inl ha
      · exact Or.inr (by simp [hr])
    · rw [if_neg hg] at h
      rcases ih (acc ++ [t]) x h with ha | hr
      · rcases List.mem_append.mp ha with h1 | h2
        · exact Or.inl h1
        · simp at h2; exact Or.inr (by simp [h2])
      · exact Or.inr (by simp [hr])

/-- Deduplication produces a pairwise distinct list when started from a
pairwise distinct accumulator whose later extensions are guarded. -/
theorem dedupAux_distinct :
    ∀ (L acc : List PyType), pyDistinct acc → pyDistinct (dedupAux acc L) := by
  intro L
  induction L with
  | nil => intro acc h; exact h
  | cons t rest ih =>
    intro acc hacc
    simp only [dedupAux]
    by_cases hg : acc.any (fun u => beqPy u t) = true
    · rw [if_pos hg]; exact ih acc hacc
    · rw [if_neg hg]
      apply ih
      rw [pyDistinct, List.pairwise_append]
      refine ⟨hacc, List.pairwise_singleton _ _, ?_⟩
      intro a ha b hb
      simp at hb
      subst hb
      simp only [List.any_eq_true, not_exists, not_and] at hg
      have hnb := hg a ha
      simpa using hnb

/-- Deduplication fixes an input that is already pairwise distinct and
completely fresh relative to the accumulator. -/
theorem dedupAux_fixed :
    ∀ (L acc : List PyType), (∀ t ∈ L, ∀ a ∈ acc, beqPy a t = false) → pyDistinct L →
      dedupAux acc L = acc ++ L := by
  intro L
  induction L with
  | nil => intro acc _ _; simp [dedupAux]
  | cons t rest ih =>
    intro acc hfresh hdist
    simp only [dedupAux]
    have hg : acc.any (fun u => beqPy u t) = false := by
      simp only [List.any_eq_false]
      intro a ha
      simp [hfresh t (by simp) a ha]
    rw [if_neg (by simp [hg])]
    rw [pyDistinct, List.pairwise_cons] at hdist
    rw [ih (acc ++ [t]) ?_ hdist.2]
    · simp
    · intro w hw a ha
      rcases List.mem_append.mp ha with h1 | h2
      · exact hfresh w (by simp [hw]) a h1
      · simp at h2
        subst h2
        exact hdist.1 w hw

/-- A non-union type contributes itself to a union. -/
theorem unionMembers_nonunion (t : PyType) (h : ∀ us, t ≠ .union us) :
    unionMembers t = [t] := by
  cases t with
  | union us => exact absurd rfl (h us)
  | pstr => rfl
  | pint => rfl
  | pfloat => rfl
  | pbool => rfl
  | pnone => rfl
  | pAny => rfl
  | plist e => rfl
  | pdict k v => rfl
  | plistRaw => rfl
  | pdictRaw => rfl
  | forwardRef j => rfl
  | enumType n m => rfl

/-- Every member of the flattened list of well-formed types is itself not a
union. -/
theorem flatten_members_nonunion (ts : List PyType)
    (hflat : ∀ m ∈ ts, unionFlat m = true) :
    ∀ x ∈ (ts.map unionMembers).flatten, ∀ us, x ≠ .union us := by
  intro x hx us
  rw [List.mem_flatten] at hx
  obtain ⟨l, hl, hxl⟩ := hx
  rw [List.mem_map] at hl
  obtain ⟨m, hm, hml⟩ := hl
  subst hml
  have hmf := hflat m hm
  cases m with
  | union vs =>
    simp only [unionFlat, Bool.and_eq_true, List.all_eq_true] at hmf
    have := hmf.2 x hxl
    intro hcontra
    rw [hcontra] at this
    simp at this
  | pstr => simp only [unionMembers] at hxl; simp at hxl; subst hxl; exact fun h => PyType.noConfusion h
  | pint => simp only [unionMembers] at hxl; simp at hxl; subst hxl; exact fun h => PyType.noConfusion h
  | pfloat => simp only [unionMembers] at hxl; simp at hxl; subst hxl; exact fun h => PyType.noConfusion h
  | pbool => simp only [unionMembers] at hxl; simp at hxl; subst hxl; exact fun h => PyType.noConfusion h
  | pnone => simp only [unionMembers] at hxl; simp at hxl; subst hxl; exact fun h => PyType.noConfusion h
  | pAny => simp only [unionMembers] at hxl; simp at hxl; subst hxl; exact fun h => PyType.noConfusion h
  | plist e => simp only [unionMembers] at hxl; simp at hxl; subst hxl; exact fun h => PyType.noConfusion h
  | pdict k v => simp only [unionMembers] at hxl; simp at hxl; subst hxl; exact fun h => PyType.noConfusion h
  | plistRaw => simp only [unionMembers] at hxl; simp at hxl; subst hxl; exact fun h => PyType.noConfusion h
  | pdictRaw => simp only [unionMembers] at hxl; simp at hxl; subst hxl; exact fun h => PyType.noConfusion h
  | forwardRef j => simp only [unionMembers] at hxl; simp at hxl; subst hxl; exact fun h => PyType.noConfusion h
  | enumType n mem => simp only [unionMembers] at hxl; simp at hxl; subst hxl; exact fun h => PyType.noConfusion h

/-- A union built by typing.Union from well-formed member types is itself
well-formed. -/
theorem mkUnion_flat_ok {ts : List PyType} {r : PyType}
    (hflat : ∀ m ∈ ts, unionFlat m = true) (hok : mkUnion ts = .ok r) :
    unionFlat r = true := by
  unfold mkUnion at hok
  cases hded : dedupAux [] ((ts.map unionMembers).flatten) with
  | nil => rw [hded] at hok; cases hok
  | cons t1 rest =>
    cases rest with
    | nil =>
      rw [hded] at hok
      injection hok with hr
      subst hr
      have ht1 : t1 ∈ dedupAux [] ((ts.map unionMembers).flatten) := by simp [hded]
      rcases dedupAux_mem _ _ _ ht1 with h1 | h2
      · cases h1
      · have hnu := flatten_members_nonunion ts hflat t1 h2
        cases t1 with
        | union us => exact absurd rfl (hnu us)
        | pstr => rfl
        | pint => rfl
        | pfloat => rfl
        | pbool => rfl
        | pnone => rfl
        | pAny => rfl
        | plist e => rfl
        | pdict k v => rfl
        | plistRaw => rfl
        | pdictRaw => rfl
        | forwardRef j => rfl
        | enumType n m => rfl
    | cons t2 rest2 =>
      rw [hded] at hok
      injection hok with hr
      subst hr
      simp only [unionFlat, Bool.and_eq_true, List.all_eq_true]
      constructor
      · simp
      · intro x hx
        have hxin : x ∈ dedupAux [] ((ts.map unionMembers).flatten) := by
          rw [hded]; exact hx
        rcases dedupAux_mem _ _ _ hxin with h1 | h2
        · cases h1
        · have hnu := flatten_members_nonunion ts hflat x h2
          cases x with
          | union us => exact absurd rfl (hnu us)
          | pstr => rfl
          | pint => rfl
          | pfloat => rfl
          | pbool => rfl
          | pnone => rfl
          | pAny => rfl
          | plist e => rfl
          | pdict k v => rfl
          | plistRaw => rfl
          | pdictRaw => rfl
          | forwardRef j => rfl
          | enumType n m => rfl

/-- Joining NoneType onto an already-built union equals building the union
with NoneType appended to the original members: the flattening and
deduplication of typing.Union make the two constructions coincide for
well-formed member types. -/
theorem mkUnion_snoc_pnone (more : List PyType) (base : PyType)
    (hflat : ∀ m ∈ more, unionFlat m = true)
    (hok : mkUnion more = .ok base) :
    mkUnion (more ++ [.pnone]) = mkUnion [base, .pnone] := by
  unfold mkUnion at hok ⊢
  have hX : ((more ++ [PyType.pnone]).map unionMembers).flatten
      = (more.map unionMembers).flatten ++ [PyType.pnone] := by
    simp [unionMembers]
  rw [hX, dedupAux_append ((more.map unionMembers).flatten) [PyType.pnone] []]
  cases hded : dedupAux [] ((more.map unionMembers).flatten) with
  | nil => rw [hded] at hok; cases hok
  | cons t1 rest =>
    cases rest with
    | nil =>
      rw [hded] at hok
      injection hok with hb
      subst hb
      have ht1 : t1 ∈ dedupAux [] ((more.map unionMembers).flatten) := by simp [hded]
      rcases dedupAux_mem _ _ _ ht1 with h1 | h2
      · cases h1
      · have hnu := flatten_members_nonunion more hflat t1 h2
        have hm : (([t1, PyType.pnone]).map unionMembers).flatten = [t1, PyType.pnone] := by
          simp [unionMembers_nonunion t1 hnu, unionMembers]
        rw [hm]
        have hstep : dedupAux [] [t1, PyType.pnone] = dedupAux [t1] [PyType.pnone] := by
          rw [show [t1, PyType.pnone] = [t1] ++ [PyType.pnone] from rfl,
            dedupAux_append [t1] [PyType.pnone] []]
          rfl
        rw [hstep]
    | cons t2 rest2 =>
      rw [hded] at hok
      injection hok with hb
      subst hb
      have hm : (([PyType.union (t1 :: t2 :: rest2), PyType.pnone]).map unionMembers).flatten
          = (t1 :: t2 :: rest2) ++ [PyType.pnone] := by
        simp [unionMembers]
      rw [hm, dedupAux_append (t1 :: t2 :: rest2) [PyType.pnone] []]
      have hdist : pyDistinct (t1 :: t2 :: rest2) := by
        rw [← hded]
        exact dedupAux_distinct ((more.map unionMembers).flatten) [] List.Pairwise.nil
      have hfix : dedupAux [] (t1 :: t2 :: rest2) = t1 :: t2 :: rest2 := by
        have h := dedupAux_fixed (t1 :: t2 :: rest2) []
          (fun t _ a ha => absurd ha (List.not_mem_nil a)) hdist
        simpa using h
      rw [hfix]

/-- Every output element of mapExcept comes from applying the function to an
input element. -/
theorem mapExcept_mem {α β : Type} {f : α → Except Err β} :
    ∀ {l : List α} {ys : List β}, mapExcept f l = .ok ys →
      ∀ y ∈ ys, ∃ x ∈ l, f x = .ok y := by
  intro l
  induction l with
  | nil =>
    intro ys h y hy
    injection h with h2
    subst h2
    cases hy
  | cons a rest ih =>
    intro ys h y hy
    simp only [mapExcept] at h
    cases hfa : f a with
    | error e => rw [hfa] at h; cases h
    | ok b =>
      rw [hfa] at h
      cases hrest : mapExcept f rest with
      | error e => rw [hrest] at h; cases h
      | ok bs =>
        rw [hrest] at h
        injection h with h2
        subst h2
        rcases List.mem_cons.mp hy with hyb | hybs
        · subst hyb
          exact ⟨a, by simp, hfa⟩
        · obtain ⟨x, hx, hfx⟩ := ih hrest y hybs
          exact ⟨x, by simp [hx], hfx⟩

/-- The runtime union with NoneType agrees with typing.Union on every type
that is not a bare string forward reference. -/
theorem pyOrNone_not_fwd (t : PyType) (h : ∀ j, t ≠ .forwardRef j) :
    pyOrNone t = mkUnion [t, .pnone] := by
  cases t with
  | forwardRef j => exact absurd rfl (h j)
  | pstr => rfl
  | pint => rfl
  | pfloat => rfl
  | pbool => rfl
  | pnone => rfl
  | pAny => rfl
  | plist e => rfl
  | pdict k v => rfl
  | plistRaw => rfl
  | pdictRaw => rfl
  | enumType n m => rfl
  | union us => rfl

/-- The anyOf combination of well-formed variant types yields a well-formed
type. -/
theorem anyOfCombine_flat {ts : List PyType} {r : PyType}
    (hflat : ∀ m ∈ ts, unionFlat m = true)
    (hok : anyOfCombine ts = .ok r) : unionFlat r = true := by
  unfold anyOfCombine at hok
  have hfilter : ∀ m ∈ ts.filter (fun u => !(isPNone u)), unionFlat m = true :=
    fun m hm => hflat m (List.mem_of_mem_filter hm)
  by_cases hnull : ts.any isPNone = true
  · rw [if_pos hnull] at hok
    cases hrem : ts.filter (fun u => !(isPNone u)) with
    | nil =>
      rw [hrem] at hok
      apply mkUnion_flat_ok ?_ hok
      intro m hm
      simp at hm
      subst hm
      rfl
    | cons r1 rest =>
      cases rest with
      | nil =>
        rw [hrem] at hok
        have hok2 : pyOrNone r1 = .ok r := hok
        have hfw : ∀ j, r1 ≠ PyType.forwardRef j := by
          intro j hj
          rw [hj] at hok2
          cases hok2
        rw [pyOrNone_not_fwd r1 hfw] at hok2
        apply mkUnion_flat_ok ?_ hok2
        intro m hm
        simp at hm
        rcases hm with hm1 | hm2
        · subst hm1
          exact hfilter _ (by rw [hrem]; simp)
        · subst hm2
          rfl
      | cons r2 rest2 =>
        rw [hrem] at hok
        apply mkUnion_flat_ok ?_ hok
        intro m hm
        rcases List.mem_append.mp hm with h1 | h2
        · exact hfilter m (by rw [hrem]; exact h1)
        · simp at h2
          subst h2
          rfl
  · rw [if_neg hnull] at hok
    cases hrem : ts.filter (fun u => !(isPNone u)) with
    | nil =>
      rw [hrem] at hok
      exact mkUnion_flat_ok (fun m hm => absurd hm (List.not_mem_nil m)) hok
    | cons r1 rest =>
      cases rest with
      | nil =>
        rw [hrem] at hok
        have hok2 : (pure r1 : Except Err PyType) = .ok r := hok
        injection hok2 with hr
        subst hr
        exact hfilter r1 (by simp [hrem])
      | cons r2 rest2 =>
        rw [hrem] at hok
        apply mkUnion_flat_ok ?_ hok
        intro m hm
        exact hfilter m (by rw [hrem]; exact hm)

/-- TYPEMAP entries are never unions. -/
theorem typemapGet_flat (s : String) : unionFlat (typemapGet s) = true := by
  unfold typemapGet
  split <;> rfl

/-- A successfully created enum type is never a union. -/
theorem pyEnumCreate_flat (cls : String) (d : List (String × Json)) (r : PyType)
    (h : pyEnumCreate cls d = .ok r) : unionFlat r = true := by
  unfold pyEnumCreate at h
  cases hs : pyEnumScan cls d with
  | error e => rw [hs] at h; exact Except.noConfusion h
  | ok p =>
    obtain ⟨members, ho⟩ := p
    rw [hs] at h
    replace h : (if members.any (fun q => q.1 == "" || q.1 == "mro") then throw Err.valueError
        else if ho then throw Err.typeError
        else pure (PyType.enumType cls members)) = Except.ok r := h
    by_cases h1 : members.any (fun q => q.1 == "" || q.1 == "mro") = true
    · rw [if_pos h1] at h; exact Except.noConfusion h
    · rw [if_neg h1] at h
      cases ho with
      | true => exact Except.noConfusion h
      | false =>
        have h2 : PyType.enumType cls members = r := Except.ok.inj h
        rw [← h2]
        rfl

/-- Every type get_field_type can return is well-formed: unions arising from
anyOf always have at least two non-union members, because typing.Union
flattens and deduplicates on construction. -/
theorem getFT_ok_flat : ∀ (fuel : Nat) (root t : Json) (r : PyType),
    getFT fuel root t = .ok r → unionFlat r = true := by
  intro fuel
  induction fuel with
  | zero =>
    intro root t r h
    cases h
  | succ f ih =>
    intro root t r h
    cases t with
    | null => injection h with hr; subst hr; rfl
    | bool b => injection h with hr; subst hr; rfl
    | num n => injection h with hr; subst hr; rfl
    | str s => injection h with hr; subst hr; rfl
    | arr xs => injection h with hr; subst hr; rfl
    | obj kvs =>
      simp only [getFT] at h
      cases h1 : jsonLookup kvs "$ref" with
      | some v =>
        rw [h1] at h
        cases v with
        | str rr =>
          replace h : (do
              let frag ← resolve_ref root rr
              match frag with
              | Json.obj fkvs =>
                pure (PyType.forwardRef (jsonGetD fkvs "title" (Json.str "UntitledModel")))
              | _ => throw Err.attributeError) = Except.ok r := h
          cases hres : resolve_ref root rr with
          | error e => rw [hres] at h; injection h
          | ok frag =>
            rw [hres] at h
            cases frag with
            | obj fkvs => injection h with hr; subst hr; rfl
            | null => injection h
            | bool b => injection h
            | num n => injection h
            | str s => injection h
            | arr xs => injection h
        | null => injection h
        | bool b => injection h
        | num n => injection h
        | arr xs => injection h
        | obj o => injection h
      | none =>
        rw [h1] at h
        cases h2 : jsonLookup kvs "enum" with
        | some ev =>
          rw [h2] at h
          replace h : (do
              let vs ← pyIter ev
              pyEnumCreate ("Enum_" ++ toString (pyHash (pyStr ev)))
                (vs.foldl (fun d v => dictInsert d (pyStr v) v) [])) = Except.ok r := h
          cases hit : pyIter ev with
          | error e => rw [hit] at h; injection h
          | ok vs =>
            rw [hit] at h
            exact pyEnumCreate_flat _ _ r h
        | none =>
          rw [h2] at h
          cases h3 : jsonLookup kvs "anyOf" with
          | some v =>
            rw [h3] at h
            cases v with
            | arr xs =>
              replace h : (do
                  let ts ← mapExcept (getFT f root) xs
                  anyOfCombine ts) = Except.ok r := h
              cases hm : mapExcept (getFT f root) xs with
              | error e => rw [hm] at h; injection h
              | ok ts =>
                rw [hm] at h
                replace h : anyOfCombine ts = Except.ok r := h
                apply anyOfCombine_flat ?_ h
                intro m hmm
                obtain ⟨x, _, hfx⟩ := mapExcept_mem hm m hmm
                exact ih root x m hfx
            | str s =>
              replace h : anyOfCombine (s.data.map (fun _ => PyType.pAny)) = Except.ok r := h
              apply anyOfCombine_flat ?_ h
              intro m hmm
              rw [List.mem_map] at hmm
              obtain ⟨x, _, hx⟩ := hmm
              subst hx
              rfl
            | obj okvs =>
              replace h : anyOfCombine (okvs.map (fun _ => PyType.pAny)) = Except.ok r := h
              apply anyOfCombine_flat ?_ h
              intro m hmm
              rw [List.mem_map] at hmm
              obtain ⟨x, _, hx⟩ := hmm
              subst hx
              rfl
            | null => injection h
            | bool b => injection h
            | num n => injection h
          | none =>
            rw [h3] at h
            cases h4 : jsonLookup kvs "type" with
            | none =>
              rw [h4] at h
              injection h with hr
              subst hr
              rfl
            | some tv =>
              rw [h4] at h
              cases tv with
              | str tn =>
                replace h : (if tn = "array" then
                    (match jsonLookup kvs "items" with
                     | some it => (getFT f root it).map PyType.plist
                     | none => pure (PyType.plist PyType.pAny))
                  else if tn = "object" then
                    (match jsonLookup kvs "additionalProperties" with
                     | some (.bool b) => pure (PyType.pdict PyType.pstr PyType.pAny)
                     | some ap => (getFT f root ap).map (fun vt => PyType.pdict PyType.pstr vt)
                     | none => pure (PyType.pdict PyType.pstr PyType.pAny))
                  else pure (typemapGet tn)) = Except.ok r := h
                by_cases ha : tn = "array"
                · rw [if_pos ha] at h
                  cases h5 : jsonLookup kvs "items" with
                  | some it =>
                    rw [h5] at h
                    replace h : (getFT f root it).map PyType.plist = Except.ok r := h
                    cases hres : getFT f root it with
                    | error e => rw [hres] at h; injection h
                    | ok vt =>
                      rw [hres] at h
                      injection h with hr
                      subst hr
                      rfl
                  | none =>
                    rw [h5] at h
                    injection h with hr
                    subst hr
                    rfl
                · by_cases hb : tn = "object"
                  · rw [if_neg ha, if_pos hb] at h
                    cases h6 : jsonLookup kvs "additionalProperties" with
                    | some ap =>
                      rw [h6] at h
                      cases ap with
                      | bool b =>
                        injection h with hr
                        subst hr
                        rfl
                      | null =>
                        replace h : (getFT f root Json.null).map
                            (fun vt => PyType.pdict PyType.pstr vt) = Except.ok r := h
                        cases hres : getFT f root Json.null with
                        | error e => rw [hres] at h; injection h
                        | ok vt => rw [hres] at h; injection h with hr; subst hr; rfl
                      | num n =>
                        replace h : (getFT f root (Json.num n)).map
                            (fun vt => PyType.pdict PyType.pstr vt) = Except.ok r := h
                        cases hres : getFT f root (Json.num n) with
                        | error e => rw [hres] at h; injection h
                        | ok vt => rw [hres] at h; injection h with hr; subst hr; rfl
                      | str s =>
                        replace h : (getFT f root (Json.str s)).map
                            (fun vt => PyType.pdict PyType.pstr vt) = Except.ok r := h
                        cases hres : getFT f root (Json.str s) with
                        | error e => rw [hres] at h; injection h
                        | ok vt => rw [hres] at h; injection h with hr; subst hr; rfl
                      | arr xs =>
                        replace h : (getFT f root (Json.arr xs)).map
                            (fun vt => PyType.pdict PyType.pstr vt) = Except.ok r := h
                        cases hres : getFT f root (Json.arr xs) with
                        | error e => rw [hres] at h; injection h
                        | ok vt => rw [hres] at h; injection h with hr; subst hr; rfl
                      | obj o =>
                        replace h : (getFT f root (Json.obj o)).map
                            (fun vt => PyType.pdict PyType.pstr vt) = Except.ok r := h
                        cases hres : getFT f root (Json.obj o) with
                        | error e => rw [hres] at h; injection h
                        | ok vt => rw [hres] at h; injection h with hr; subst hr; rfl
                    | none =>
                      rw [h6] at h
                      injection h with hr
                      subst hr
                      rfl
                  · rw [if_neg ha, if_neg hb] at h
                    injection h with hr
                    subst hr
                    exact typemapGet_flat tn
              | null =>
                injection h with hr
                subst hr
                rfl
              | bool b =>
                injection h with hr
                subst hr
                rfl
              | num n =>
                injection h with hr
                subst hr
                rfl
              | arr a2 => injection h
              | obj o2 => injection h

/-- A well-formed type always contributes at least one union member. -/
theorem unionMembers_ne_nil (m : PyType) (hm : unionFlat m = true) :
    unionMembers m ≠ [] := by
  cases m with
  | union us =>
    simp only [unionFlat, Bool.and_eq_true] at hm
    intro hcontra
    simp only [unionMembers] at hcontra
    subst hcontra
    simp at hm
  | pstr => simp [unionMembers]
  | pint => simp [unionMembers]
  | pfloat => simp [unionMembers]
  | pbool => simp [unionMembers]
  | pnone => simp [unionMembers]
  | pAny => simp [unionMembers]
  | plist e => simp [unionMembers]
  | pdict k v => simp [unionMembers]
  | plistRaw => simp [unionMembers]
  | pdictRaw => simp [unionMembers]
  | forwardRef j => simp [unionMembers]
  | enumType n mem => simp [unionMembers]

/-- typing.Union of a nonempty list of well-formed types always succeeds. -/
theorem mkUnion_ok_nonempty (ts : List PyType) (hne : ts ≠ [])
    (hflat : ∀ m ∈ ts, unionFlat m = true) : ∃ base, mkUnion ts = .ok base := by
  unfold mkUnion
  cases hded : dedupAux [] ((ts.map unionMembers).flatten) with
  | nil =>
    obtain ⟨_, hl⟩ := dedupAux_eq_nil _ _ hded
    cases ts with
    | nil => exact absurd rfl hne
    | cons t rest =>
      rw [List.flatten_eq_nil_iff] at hl
      have h1 := hl (unionMembers t) (by simp)
      exact absurd h1 (unionMembers_ne_nil t (hflat t (by simp)))
  | cons t1 rest =>
    cases rest with
    | nil => exact ⟨t1, rfl⟩
    | cons t2 rest2 => exact ⟨.union (t1 :: t2 :: rest2), rfl⟩

/-- The anyOf combination of the code coincides with the specification-side
reading specAnyOf on every variant list whose members are well-formed,
provided at least one non-null variant remains and a lone remaining variant
with null present is not a bare forward reference (the two exceptional
inputs for which the code raises instead). -/
theorem anyOfCombine_eq_spec (ts : List PyType)
    (hflat : ∀ m ∈ ts, unionFlat m = true)
    (hfwd : ts.any isPNone = true →
      ∀ j, ts.filter (fun u => !(isPNone u)) ≠ [.forwardRef j]) :
    anyOfCombine ts = specAnyOf ts := by
  unfold anyOfCombine specAnyOf
  have hfilter : ∀ m ∈ ts.filter (fun u => !(isPNone u)), unionFlat m = true :=
    fun m hm => hflat m (List.mem_of_mem_filter hm)
  by_cases hnull : ts.any isPNone = true
  · simp only [hnull, if_true]
    cases hrem : ts.filter (fun u => !(isPNone u)) with
    | nil => rfl
    | cons r1 rest =>
      cases rest with
      | nil =>
        have hr1 : ∀ j, r1 ≠ PyType.forwardRef j := by
          intro j hj
          subst hj
          exact (hfwd hnull j) hrem
        show pyOrNone r1 = (do
          let y ← (pure r1 : Except Err PyType)
          mkUnion [y, PyType.pnone])
        rw [pyOrNone_not_fwd r1 hr1]
        rfl
      | cons r2 rest2 =>
        obtain ⟨base, hbase⟩ := mkUnion_ok_nonempty (r1 :: r2 :: rest2)
          (by simp) (by rw [← hrem]; exact hfilter)
        show mkUnion ((r1 :: r2 :: rest2) ++ [PyType.pnone]) = (do
          let y ← mkUnion (r1 :: r2 :: rest2)
          mkUnion [y, PyType.pnone])
        rw [mkUnion_snoc_pnone (r1 :: r2 :: rest2) base
          (by rw [← hrem]; exact hfilter) hbase, hbase]
        rfl
  · have hnull2 : ts.any isPNone = false := by simpa using hnull
    simp only [hnull2, Bool.false_eq_true, if_false]

/-- C4 counterexample: an anyOf whose variants are a reference and null
raises TypeError, because the single remaining variant is a plain string
forward reference and the runtime union operator at line 107 rejects
strings; the claim that every such fragment maps to the nullable variant
type fails. -/
theorem C4_counterexample :
    get_field_type (.obj [("$defs", .obj [("A", .obj [("title", .str "A")])])])
      (.obj [("anyOf", .arr [.obj [("$ref", .str "#/$defs/A")], .obj [("type", .str "null")]])])
      = .error .typeError := rfl

/-- C4 (amended): for every schema fragment containing an anyOf list of
sub-schemas (and no $ref or enum key), each sub-schema is mapped
independently in source order with mapping errors propagating; provided a
lone remaining variant joined with null is not a bare forward reference,
the result agrees with the specification reading specAnyOf: null variants
are dropped and the field marked nullable instead of null being kept as a
variant, a single remaining variant collapses to itself (optionally
nullable), when every variant was null the field type is NoneType itself,
an anyOf with no variants at all raises TypeError on the empty union, and
otherwise the result is the union of the remaining variants in preserved
order (nullable when null was present).  In particular anyOf of string and
null maps to the nullable string Optional[str], which Python represents as
the union with NoneType appended (its only representation of an optional
type). -/
theorem C4_anyof_rule (root : Json) (kvs : List (String × Json))
    (xs : List Json) (ts : List PyType)
    (href : jsonLookup kvs "$ref" = none) (henum : jsonLookup kvs "enum" = none)
    (hany : jsonLookup kvs "anyOf" = some (.arr xs))
    (hmap : mapExcept (get_field_type root) xs = .ok ts)
    (hfwd : ts.any isPNone = true →
      ∀ j, ts.filter (fun u => !(isPNone u)) ≠ [.forwardRef j]) :
    get_field_type root (.obj kvs) = specAnyOf ts
    ∧ get_field_type .null (.obj [("anyOf",
        .arr [.obj [("type", .str "string")], .obj [("type", .str "null")]])])
      = .ok (.union [.pstr, .pnone]) := by
  constructor
  · have hxs : jsonSizeList xs < jsonSizeKV kvs := by
      have := jsonLookup_size hany
      simp [jsonSize] at this
      omega
    have hhm : mapExcept (getFT (jsonSizeKV kvs) root) xs = .ok ts := by
      rw [mapExcept_congr xs (fun x hx => getFT_irrel (jsonSizeKV kvs) root x
        (by have := jsonSizeList_mem hx; omega))]
      exact hmap
    show getFT (jsonSizeKV kvs + 1) root (.obj kvs) = _
    simp only [getFT, href, henum, hany]
    rw [hhm]
    have hflat : ∀ m ∈ ts, unionFlat m = true := by
      intro m hm
      obtain ⟨x, _, hfx⟩ := mapExcept_mem hhm m hm
      exact getFT_ok_flat (jsonSizeKV kvs) root x m hfx
    exact anyOfCombine_eq_spec ts hflat hfwd
  · rfl

/-- Witness for C4 at the concrete anyOf of string, integer and null: the
field type is the union of string and integer with NoneType appended. -/
theorem C4_anyof_rule_witness :
    mapExcept (get_field_type .null)
      [Json.obj [("type", Json.str "string")], Json.obj [("type", Json.str "integer")],
       Json.obj [("type", Json.str "null")]]
      = .ok [.pstr, .pint, .pnone]
    ∧ get_field_type .null (.obj [("anyOf", .arr
        [.obj [("type", .str "string")], .obj [("type", .str "integer")],
         .obj [("type", .str "null")]])])
      = .ok (.union [.pstr, .pint, .pnone]) := by
  refine ⟨rfl, ?_⟩
  have h := (C4_anyof_rule .null
    [("anyOf", .arr [.obj [("type", .str "string")], .obj [("type", .str "integer")],
      .obj [("type", .str "null")]])]
    [.obj [("type", .str "string")], .obj [("type", .str "integer")],
      .obj [("type", .str "null")]]
    [.pstr, .pint, .pnone]
    rfl rfl rfl rfl
    (fun _ j hcontra => by
      injection hcontra with h1 h2
      exact PyType.noConfusion h1)).1
  exact h.trans rfl

/-- Joining NoneType onto any type through typing.Union always succeeds. -/
theorem mkUnion_with_pnone_ok (t : PyType) : ∃ u, mkUnion [t, .pnone] = .ok u := by
  unfold mkUnion
  cases hded : dedupAux [] (([t, PyType.pnone].map unionMembers).flatten) with
  | nil =>
    exfalso
    obtain ⟨_, hl⟩ := dedupAux_eq_nil _ _ hded
    have hform : ([t, PyType.pnone].map unionMembers).flatten
        = unionMembers t ++ [PyType.pnone] := by simp [unionMembers]
    rw [hform] at hl
    simp at hl
  | cons a rest =>
    cases rest with
    | nil => exact ⟨a, rfl⟩
    | cons a2 rest2 => exact ⟨.union (a :: a2 :: rest2), rfl⟩

/-- Every violation reported by the presence pass names a declared field. -/
theorem constructMissing_mem :
    ∀ (fields : List (String × FieldInfo)) (vals : List (String × Json)) (x : String),
      VErr.missingRequiredField x ∈ constructMissing fields vals → x ∈ fields.map Prod.fst := by
  intro fields
  induction fields with
  | nil => intro vals x h; cases h
  | cons p rest ih =>
    obtain ⟨k, fi⟩ := p
    intro vals x h
    simp only [constructMissing] at h
    cases hlk : jsonLookup vals k with
    | some v =>
      rw [hlk] at h
      exact List.mem_cons_of_mem _ (ih vals x h)
    | none =>
      rw [hlk] at h
      cases hdf : fi.default with
      | some d =>
        rw [hdf] at h
        exact List.mem_cons_of_mem _ (ih vals x h)
      | none =>
        rw [hdf] at h
        rcases List.mem_cons.mp h with h1 | h2
        · injection h1 with hx
          subst hx
          simp
        · exact List.mem_cons_of_mem _ (ih vals x h2)

/-- Exactly one missing-required-field violation is reported per omitted
required field (a field list with distinct names, a field present in it
with no supplied value and no default). -/
theorem constructMissing_count :
    ∀ (fields : List (String × FieldInfo)) (vals : List (String × Json)) (fn : String)
      (fi : FieldInfo),
      (fields.map Prod.fst).Nodup → (fn, fi) ∈ fields →
      jsonLookup vals fn = none → fi.default = none →
      (constructMissing fields vals).count (.missingRequiredField fn) = 1 := by
  intro fields
  induction fields with
  | nil => intro vals fn fi _ hmem; cases hmem
  | cons p rest ih =>
    obtain ⟨k, f0⟩ := p
    intro vals fn fi hnodup hmem hlk hdf
    simp only [List.map_cons, List.nodup_cons] at hnodup
    rcases List.mem_cons.mp hmem with h1 | h2
    · injection h1 with hfn hfi
      subst hfn
      subst hfi
      simp only [constructMissing, hlk, hdf]
      have hzero : (constructMissing rest vals).count (.missingRequiredField fn) = 0 := by
        rw [List.count_eq_zero]
        intro hcontra
        exact hnodup.1 (constructMissing_mem rest vals fn hcontra)
      simp [List.count_cons, hzero]
    · have hfnrest : fn ∈ rest.map Prod.fst := List.mem_map_of_mem Prod.fst h2
      have hkfn : fn ≠ k := by
        intro hcontra
        subst hcontra
        exact hnodup.1 hfnrest
      have hrest := ih vals fn fi hnodup.2 h2 hlk hdf
      simp only [constructMissing]
      cases hlk2 : jsonLookup vals k with
      | some v => exact hrest
      | none =>
        cases hdf2 : f0.default with
        | some d => exact hrest
        | none =>
          rw [List.count_cons]
          simp only [hrest]
          have hkfn2 : ¬ k = fn := fun h => hkfn h.symm
          have : (VErr.missingRequiredField fn == VErr.missingRequiredField k) = false := by
            simp [hkfn]
          simp [this, hkfn, hkfn2]

/-- C3 counterexample: a top-level build whose only property is an optional
reference field crashes with TypeError, because the widening at line 180
evaluates the union of a plain string forward reference with NoneType,
which the Python runtime rejects; the claim that such a field becomes
nullable with a null default fails. -/
theorem C3_counterexample :
    create_model_top (.obj [("type", .str "object"),
      ("properties", .obj [("x", .obj [("$ref", .str "#/$defs/A")])]),
      ("$defs", .obj [("A", .obj [("type", .str "object"), ("title", .str "A")])])]) "Tool"
      = .error .typeError := rfl

/-- C3 (amended): the required/optional default policy of lines 176-184
together with the construction contract.  For a declared property whose
schema is a mapping and whose mapped type is not a bare forward-reference
string: a field neither listed in required nor carrying an explicit default
gets its type widened by joining NoneType and the explicit default None; a
field listed in required without an explicit default keeps its type and the
required marker (no implicit default); a field with an explicit default
keeps its declared non-widened type and that default whatever its required
status.  At construction time each omitted required field yields exactly
one MissingRequiredField violation.  On the spec example schema,
construction with x supplied succeeds with y defaulted to null, and
construction with nothing supplied fails with exactly the one violation for
x.  (The correction: a bare forward-reference optional field raises
TypeError at the widening instead, as the counterexample shows.) -/
theorem C3_required_optional_policy :
    (∀ (root requiredJ : Json) (fn : String) (fkvs : List (String × Json)) (t : PyType),
      get_field_type root (.obj fkvs) = .ok t →
      jsonLookup fkvs "default" = none →
      pyContains fn requiredJ = .ok false →
      (∀ j, t ≠ .forwardRef j) →
      ∃ t2, pyOrNone t = .ok t2 ∧
        buildField root requiredJ fn (.obj fkvs)
          = .ok ⟨t2, some .null, jsonGetD fkvs "description" (.str "")⟩)
    ∧ (∀ (root requiredJ : Json) (fn : String) (fkvs : List (String × Json)) (t : PyType),
      get_field_type root (.obj fkvs) = .ok t →
      jsonLookup fkvs "default" = none →
      pyContains fn requiredJ = .ok true →
      buildField root requiredJ fn (.obj fkvs)
        = .ok ⟨t, none, jsonGetD fkvs "description" (.str "")⟩)
    ∧ (∀ (root requiredJ : Json) (fn : String) (fkvs : List (String × Json)) (t : PyType)
        (d : Json) (b : Bool),
      get_field_type root (.obj fkvs) = .ok t →
      jsonLookup fkvs "default" = some d →
      pyContains fn requiredJ = .ok b →
      buildField root requiredJ fn (.obj fkvs)
        = .ok ⟨t, some d, jsonGetD fkvs "description" (.str "")⟩)
    ∧ (∀ (fields : List (String × FieldInfo)) (vals : List (String × Json)) (fn : String)
        (fi : FieldInfo),
      (fields.map Prod.fst).Nodup → (fn, fi) ∈ fields →
      jsonLookup vals fn = none → fi.default = none →
      (constructMissing fields vals).count (.missingRequiredField fn) = 1)
    ∧ (∃ m st, create_model_top (.obj [("type", .str "object"),
        ("properties", .obj [("x", .obj [("type", .str "string")]),
          ("y", .obj [("type", .str "integer")])]),
        ("required", .arr [.str "x"])]) "Tool" = .ok (m, st)
      ∧ constructModel m [("x", .str "a")] = .ok [("x", .str "a"), ("y", .null)]
      ∧ constructModel m [] = .error [.missingRequiredField "x"]) := by
  refine ⟨?_, ?_, ?_, constructMissing_count, ?_⟩
  · intro root requiredJ fn fkvs t hft hdflt hreq hfw
    obtain ⟨t2, ht2⟩ := mkUnion_with_pnone_ok t
    have hor : pyOrNone t = .ok t2 := by
      rw [pyOrNone_not_fwd t hfw]
      exact ht2
    refine ⟨t2, hor, ?_⟩
    have h1 : buildField root requiredJ fn (.obj fkvs) = (do
        let req ← pyContains fn requiredJ
        match req, jsonLookup fkvs "default" with
        | false, none => do
          let ft2 ← pyOrNone t
          pure (⟨ft2, some Json.null, jsonGetD fkvs "description" (Json.str "")⟩ : FieldInfo)
        | _, _ =>
          pure (⟨t, jsonLookup fkvs "default", jsonGetD fkvs "description" (Json.str "")⟩ :
            FieldInfo)) := by
      unfold buildField
      rw [hft]
      rfl
    rw [h1, hreq, hdflt]
    replace hor := hor
    show (do
      let ft2 ← pyOrNone t
      pure (⟨ft2, some Json.null, jsonGetD fkvs "description" (Json.str "")⟩ : FieldInfo)) = _
    rw [hor]
    rfl
  · intro root requiredJ fn fkvs t hft hdflt hreq
    have h1 : buildField root requiredJ fn (.obj fkvs) = (do
        let req ← pyContains fn requiredJ
        match req, jsonLookup fkvs "default" with
        | false, none => do
          let ft2 ← pyOrNone t
          pure (⟨ft2, some Json.null, jsonGetD fkvs "description" (Json.str "")⟩ : FieldInfo)
        | _, _ =>
          pure (⟨t, jsonLookup fkvs "default", jsonGetD fkvs "description" (Json.str "")⟩ :
            FieldInfo)) := by
      unfold buildField
      rw [hft]
      rfl
    rw [h1, hreq, hdflt]
    rfl
  · intro root requiredJ fn fkvs t d b hft hdflt hreq
    have h1 : buildField root requiredJ fn (.obj fkvs) = (do
        let req ← pyContains fn requiredJ
        match req, jsonLookup fkvs "default" with
        | false, none => do
          let ft2 ← pyOrNone t
          pure (⟨ft2, some Json.null, jsonGetD fkvs "description" (Json.str "")⟩ : FieldInfo)
        | _, _ =>
          pure (⟨t, jsonLookup fkvs "default", jsonGetD fkvs "description" (Json.str "")⟩ :
            FieldInfo)) := by
      unfold buildField
      rw [hft]
      rfl
    rw [h1, hreq, hdflt]
    cases b <;> rfl
  · exact ⟨_, _, rfl, rfl, rfl⟩

/-- Witness for C3 at a concrete optional integer field without default. -/
theorem C3_required_optional_policy_witness :
    get_field_type .null (.obj [("type", .str "integer")]) = .ok .pint
    ∧ jsonLookup [("type", Json.str "integer")] "default" = none
    ∧ pyContains "y" (.arr [.str "x"]) = .ok false
    ∧ buildField .null (.arr [.str "x"]) "y" (.obj [("type", .str "integer")])
      = .ok ⟨.union [.pint, .pnone], some .null, .str ""⟩ := by
  refine ⟨rfl, rfl, rfl, ?_⟩
  obtain ⟨t2, hor, hbf⟩ := (C3_required_optional_policy).1 .null (.arr [.str "x"]) "y"
    [("type", .str "integer")] .pint rfl rfl rfl (fun j h => PyType.noConfusion h)
  have ht2 : t2 = .union [.pint, .pnone] := by
    have : pyOrNone PyType.pint = .ok (.union [.pint, .pnone]) := rfl
    rw [this] at hor
    injection hor with h2
    exact h2.symm
  rw [ht2] at hbf
  exact hbf

/-- Splitting a slash-free character list yields a single piece. -/
theorem splitSlash_noSlash : ∀ (l : List Char), ¬ '/' ∈ l → splitSlash l = [l] := by
  intro l
  induction l with
  | nil => intro _; rfl
  | cons c cs ih =>
    intro h
    have hc : ¬ c = '/' := by
      intro hcontra
      exact h (by simp [hcontra])
    have hcs : ¬ '/' ∈ cs := fun hmem => h (by simp [hmem])
    simp only [splitSlash]
    rw [if_neg hc, ih hcs]

/-- Path segments of a reference into the defs section: the marker is
stripped, and a slash-free definition name forms the second segment. -/
theorem refParts_defs (s : String) (hs : ¬ '/' ∈ s.data) :
    refParts ("#/$defs/" ++ s) = ["$defs", s] := by
  have h1 : pyLstripHashSlash ("#/$defs/" ++ s)
      = '$' :: 'd' :: 'e' :: 'f' :: 's' :: '/' :: s.data := rfl
  unfold refParts
  rw [h1]
  have h2 : splitSlash ('$' :: 'd' :: 'e' :: 'f' :: 's' :: '/' :: s.data)
      = ['$', 'd', 'e', 'f', 's'] :: splitSlash s.data := rfl
  rw [h2, splitSlash_noSlash s.data hs]
  rfl

/-- C1 counterexample: two object definitions referencing each other through
properties that are not listed in required crash the build with TypeError:
the optional-field widening of line 180 evaluates the union of a plain
string forward reference with NoneType, which the Python runtime rejects.
The claim that every mutually referencing pair of definitions builds
successfully therefore fails. -/
theorem C1_counterexample :
    create_model_top (.obj [("type", .str "object"), ("properties", .obj []),
      ("$defs", .obj [
        ("A", .obj [("type", .str "object"), ("title", .str "A"),
          ("properties", .obj [("to_b", .obj [("$ref", .str "#/$defs/B")])])]),
        ("B", .obj [("type", .str "object"), ("title", .str "B"),
          ("properties", .obj [("to_a", .obj [("$ref", .str "#/$defs/A")])])])])])
      "Tool" = .error .typeError := rfl

/-- C1 (amended): for every schema whose defs section holds two object
definitions, each titled by its own key and referencing the other through a
required property, the top-level build under a fresh root name terminates
and succeeds: the registry receives one model definition per name, and each
definition holds the mutual reference as a plain forward handle carrying
the name of the other definition (its title), without re-entering the
builder.  (The restriction to required reference properties is forced by
the counterexample: optional reference properties crash the widening.) -/
theorem C1_cycle_termination (a b n fa fb : String)
    (hab : a ≠ b) (hna : n ≠ a) (hnb : n ≠ b)
    (hsa : ¬ '/' ∈ a.data) (hsb : ¬ '/' ∈ b.data) :
    create_model_top (.obj [("type", .str "object"), ("properties", .obj []),
      ("$defs", .obj [
        (a, .obj [("type", .str "object"), ("title", .str a),
          ("properties", .obj [(fa, .obj [("$ref", .str ("#/$defs/" ++ b))])]),
          ("required", .arr [.str fa])]),
        (b, .obj [("type", .str "object"), ("title", .str b),
          ("properties", .obj [(fb, .obj [("$ref", .str ("#/$defs/" ++ a))])]),
          ("required", .arr [.str fb])])])]) n
    = .ok (⟨n, []⟩,
        ⟨[b, a, n],
         [(b, ⟨b, [(fb, ⟨.forwardRef (.str a), none, .str ""⟩)]⟩),
          (a, ⟨a, [(fa, ⟨.forwardRef (.str b), none, .str ""⟩)]⟩),
          (n, ⟨n, []⟩)],
         [b, a, n]⟩) := by
  have hba : ¬ b = a := fun h => hab h.symm
  have han : ¬ a = n := fun h => hna h.symm
  have hbn : ¬ b = n := fun h => hnb h.symm
  set rB := Json.obj [("$ref", .str ("#/$defs/" ++ b))] with hrB
  set rA := Json.obj [("$ref", .str ("#/$defs/" ++ a))] with hrA
  set dA := Json.obj [("type", .str "object"), ("title", .str a),
    ("properties", .obj [(fa, rB)]), ("required", .arr [.str fa])] with hdA
  set dB := Json.obj [("type", .str "object"), ("title", .str b),
    ("properties", .obj [(fb, rA)]), ("required", .arr [.str fb])] with hdB
  set S := Json.obj [("type", .str "object"), ("properties", .obj []),
    ("$defs", .obj [(a, dA), (b, dB)])] with hS
  set defBv : ModelDef := ⟨b, [(fb, ⟨.forwardRef (.str a), none, .str ""⟩)]⟩ with hdefBv
  set defAv : ModelDef := ⟨a, [(fa, ⟨.forwardRef (.str b), none, .str ""⟩)]⟩ with hdefAv
  -- resolution of the two defs references
  have hresA : resolve_ref S ("#/$defs/" ++ a) = .ok dA := by
    unfold resolve_ref
    rw [if_pos (show pyStartsWith ("#/$defs/" ++ a) "#/" = true from rfl)]
    rw [refParts_defs a hsa]
    have hstep : resolveSteps S ["$defs", a]
        = resolveSteps (Json.obj [(a, dA), (b, dB)]) [a] := rfl
    rw [hstep]
    have hany : List.any [(a, dA), (b, dB)] (fun q => q.1 == a) = true := by
      simp
    have hred : resolveSteps (Json.obj [(a, dA), (b, dB)]) [a]
        = (if (List.any [(a, dA), (b, dB)] (fun q => q.1 == a)) = true then
            (match jsonLookup [(a, dA), (b, dB)] a with
             | some v => resolveSteps v []
             | none => Except.error Err.typeError)
           else Except.error (Err.missingKey a ([(a, dA), (b, dB)].map Prod.fst))) := rfl
    rw [hred, hany, if_pos rfl]
    simp only [jsonLookup, if_pos rfl]
    rfl
  have hresB : resolve_ref S ("#/$defs/" ++ b) = .ok dB := by
    unfold resolve_ref
    rw [if_pos (show pyStartsWith ("#/$defs/" ++ b) "#/" = true from rfl)]
    rw [refParts_defs b hsb]
    have hstep : resolveSteps S ["$defs", b]
        = resolveSteps (Json.obj [(a, dA), (b, dB)]) [b] := rfl
    rw [hstep]
    have hany : List.any [(a, dA), (b, dB)] (fun q => q.1 == b) = true := by
      simp
    have hred : resolveSteps (Json.obj [(a, dA), (b, dB)]) [b]
        = (if (List.any [(a, dA), (b, dB)] (fun q => q.1 == b)) = true then
            (match jsonLookup [(a, dA), (b, dB)] b with
             | some v => resolveSteps v []
             | none => Except.error Err.typeError)
           else Except.error (Err.missingKey b ([(a, dA), (b, dB)].map Prod.fst))) := rfl
    rw [hred, hany, if_pos rfl]
    simp only [jsonLookup]
    rw [if_neg hab, if_pos trivial]
    rfl
  -- field types of the two reference properties
  have hgfA : get_field_type S rA = .ok (.forwardRef (.str a)) := by
    show (do
      let frag ← resolve_ref S ("#/$defs/" ++ a)
      match frag with
      | Json.obj fkvs => pure (PyType.forwardRef (jsonGetD fkvs "title" (.str "UntitledModel")))
      | _ => throw Err.attributeError) = _
    rw [hresA]
    rfl
  have hgfB : get_field_type S rB = .ok (.forwardRef (.str b)) := by
    show (do
      let frag ← resolve_ref S ("#/$defs/" ++ b)
      match frag with
      | Json.obj fkvs => pure (PyType.forwardRef (jsonGetD fkvs "title" (.str "UntitledModel")))
      | _ => throw Err.attributeError) = _
    rw [hresB]
    rfl
  -- the single field of each definition
  have hbfB : buildField S (.arr [.str fb]) fb rA
      = .ok ⟨.forwardRef (.str a), none, .str ""⟩ := by
    unfold buildField
    rw [hgfA]
    have hcont : pyContains fb (.arr [.str fb]) = .ok true := by
      simp only [pyContains, List.any_cons, List.any_nil, beq_self_eq_true, Bool.true_or]
      rfl
    show (do
      let req ← pyContains fb (.arr [.str fb])
      match req, (none : Option Json) with
      | false, none => do
        let ft2 ← pyOrNone (.forwardRef (.str a))
        pure (⟨ft2, some Json.null, Json.str ""⟩ : FieldInfo)
      | _, _ =>
        pure (⟨.forwardRef (.str a), (none : Option Json), Json.str ""⟩ : FieldInfo)) = _
    rw [hcont]
    rfl
  have hbfA : buildField S (.arr [.str fa]) fa rB
      = .ok ⟨.forwardRef (.str b), none, .str ""⟩ := by
    unfold buildField
    rw [hgfB]
    have hcont : pyContains fa (.arr [.str fa]) = .ok true := by
      simp only [pyContains, List.any_cons, List.any_nil, beq_self_eq_true, Bool.true_or]
      rfl
    show (do
      let req ← pyContains fa (.arr [.str fa])
      match req, (none : Option Json) with
      | false, none => do
        let ft2 ← pyOrNone (.forwardRef (.str b))
        pure (⟨ft2, some Json.null, Json.str ""⟩ : FieldInfo)
      | _, _ =>
        pure (⟨.forwardRef (.str b), (none : Option Json), Json.str ""⟩ : FieldInfo)) = _
    rw [hcont]
    rfl
  have hbFieldsB : buildFields S (.arr [.str fb]) [(fb, rA)]
      = .ok [(fb, ⟨.forwardRef (.str a), none, .str ""⟩)] := by
    simp only [buildFields]
    rw [hbfB]
    rfl
  have hbFieldsA : buildFields S (.arr [.str fa]) [(fa, rB)]
      = .ok [(fa, ⟨.forwardRef (.str b), none, .str ""⟩)] := by
    simp only [buildFields]
    rw [hbfA]
    rfl
  -- building definition b (innermost call)
  have hbuildB : create_model_from_schema (0 + 1) dB b S ⟨[a, n], [], []⟩
      = .ok (defBv, ⟨[b, a, n], [(b, defBv)], [b]⟩) := by
    simp only [create_model_from_schema]
    rw [if_neg (show ¬ b ∈ [a, n] by
      intro hmem
      rcases List.mem_cons.mp hmem with h | h
      · exact hba h
      · rcases List.mem_cons.mp h with h2 | h2
        · exact hbn h2
        · cases h2)]
    have hdefs : buildDefsList (fun sch nm s => create_model_from_schema 0 sch nm S s)
        [(a, dA), (b, dB)] ⟨[b, a, n], [], []⟩ = .ok ⟨[b, a, n], [], []⟩ := by
      show (if ("object" = "object" ∧ ¬ a ∈ ([b, a, n] : List String)) then do
          let (_, st2) ← create_model_from_schema 0 dA a S ⟨[b, a, n], [], []⟩
          buildDefsList (fun sch nm s => create_model_from_schema 0 sch nm S s) [(b, dB)] st2
        else buildDefsList (fun sch nm s => create_model_from_schema 0 sch nm S s)
          [(b, dB)] ⟨[b, a, n], [], []⟩) = _
      rw [if_neg (show ¬ ("object" = "object" ∧ ¬ a ∈ ([b, a, n] : List String)) from
        fun hp => hp.2 (by simp))]
      show (if ("object" = "object" ∧ ¬ b ∈ ([b, a, n] : List String)) then do
          let (_, st2) ← create_model_from_schema 0 dB b S ⟨[b, a, n], [], []⟩
          buildDefsList (fun sch nm s => create_model_from_schema 0 sch nm S s) [] st2
        else buildDefsList (fun sch nm s => create_model_from_schema 0 sch nm S s)
          [] ⟨[b, a, n], [], []⟩) = _
      rw [if_neg (show ¬ ("object" = "object" ∧ ¬ b ∈ ([b, a, n] : List String)) from
        fun hp => hp.2 (by simp))]
      rfl
    show (do
      let st2 ← buildDefsList (fun sch nm s => create_model_from_schema 0 sch nm S s)
        [(a, dA), (b, dB)] ⟨[b, a, n], [], []⟩
      (do
        let fields ← buildFields S (.arr [.str fb]) [(fb, rA)]
        let m : ModelDef := ⟨b, fields⟩
        pure (m, { st2 with
          registry := registryInsert st2.registry b m,
          trace := st2.trace ++ [b] }) : Except Err (ModelDef × BState))) = _
    rw [hdefs]
    show (do
      let fields ← buildFields S (.arr [.str fb]) [(fb, rA)]
      let m : ModelDef := ⟨b, fields⟩
      pure (m, (⟨[b, a, n], registryInsert [] b m, [] ++ [b]⟩ : BState))) = _
    rw [hbFieldsB]
    rfl
  -- building definition a (which builds b first through the defs loop)
  have hbuildA : create_model_from_schema ((0 + 1) + 1) dA a S ⟨[n], [], []⟩
      = .ok (defAv, ⟨[b, a, n], [(b, defBv), (a, defAv)], [b, a]⟩) := by
    simp only [create_model_from_schema]
    rw [if_neg (show ¬ a ∈ [n] by
      intro hmem
      rcases List.mem_cons.mp hmem with h | h
      · exact han h
      · cases h)]
    have hdefs : buildDefsList (fun sch nm s => create_model_from_schema (0 + 1) sch nm S s)
        [(a, dA), (b, dB)] ⟨[a, n], [], []⟩ = .ok ⟨[b, a, n], [(b, defBv)], [b]⟩ := by
      show (if ("object" = "object" ∧ ¬ a ∈ ([a, n] : List String)) then do
          let (_, st2) ← create_model_from_schema (0 + 1) dA a S ⟨[a, n], [], []⟩
          buildDefsList (fun sch nm s => create_model_from_schema (0 + 1) sch nm S s) [(b, dB)] st2
        else buildDefsList (fun sch nm s => create_model_from_schema (0 + 1) sch nm S s)
          [(b, dB)] ⟨[a, n], [], []⟩) = _
      rw [if_neg (show ¬ ("object" = "object" ∧ ¬ a ∈ ([a, n] : List String)) from
        fun hp => hp.2 (by simp))]
      show (if ("object" = "object" ∧ ¬ b ∈ ([a, n] : List String)) then do
          let (_, st2) ← create_model_from_schema (0 + 1) dB b S ⟨[a, n], [], []⟩
          buildDefsList (fun sch nm s => create_model_from_schema (0 + 1) sch nm S s) [] st2
        else buildDefsList (fun sch nm s => create_model_from_schema (0 + 1) sch nm S s)
          [] ⟨[a, n], [], []⟩) = _
      rw [if_pos (show ("object" = "object" ∧ ¬ b ∈ ([a, n] : List String)) from
        ⟨rfl, fun hmem => by
          rcases List.mem_cons.mp hmem with h | h
          · exact hba h
          · rcases List.mem_cons.mp h with h2 | h2
            · exact hbn h2
            · cases h2⟩)]
      rw [hbuildB]
      rfl
    show (do
      let st2 ← buildDefsList (fun sch nm s => create_model_from_schema (0 + 1) sch nm S s)
        [(a, dA), (b, dB)] ⟨[a, n], [], []⟩
      (do
        let fields ← buildFields S (.arr [.str fa]) [(fa, rB)]
        let m : ModelDef := ⟨a, fields⟩
        pure (m, { st2 with
          registry := registryInsert st2.registry a m,
          trace := st2.trace ++ [a] }) : Except Err (ModelDef × BState))) = _
    rw [hdefs]
    show (do
      let fields ← buildFields S (.arr [.str fa]) [(fa, rB)]
      let m : ModelDef := ⟨a, fields⟩
      pure (m, (⟨[b, a, n], registryInsert [(b, defBv)] a m, [b] ++ [a]⟩ : BState))) = _
    rw [hbFieldsA]
    have hins : registryInsert [(b, defBv)] a defAv = [(b, defBv), (a, defAv)] := by
      unfold registryInsert
      rw [if_neg (show ¬ (List.any [(b, defBv)] (fun p => p.1 == a) = true) by
        simp [hba])]
      rfl
    show Except.ok (defAv, (⟨[b, a, n], registryInsert [(b, defBv)] a defAv, [b] ++ [a]⟩
      : BState)) = _
    rw [hins]
    rfl
  -- the top-level build
  show create_model_from_schema (((0 + 1) + 1) + 1) S n S ⟨[], [], []⟩ = _
  simp only [create_model_from_schema]
  rw [if_neg (List.not_mem_nil n)]
  have hdefsTop : buildDefsList (fun sch nm s => create_model_from_schema ((0 + 1) + 1) sch nm S s)
      [(a, dA), (b, dB)] ⟨[n], [], []⟩
      = .ok ⟨[b, a, n], [(b, defBv), (a, defAv)], [b, a]⟩ := by
    show (if ("object" = "object" ∧ ¬ a ∈ ([n] : List String)) then do
        let (_, st2) ← create_model_from_schema ((0 + 1) + 1) dA a S ⟨[n], [], []⟩
        buildDefsList (fun sch nm s => create_model_from_schema ((0 + 1) + 1) sch nm S s)
          [(b, dB)] st2
      else buildDefsList (fun sch nm s => create_model_from_schema ((0 + 1) + 1) sch nm S s)
        [(b, dB)] ⟨[n], [], []⟩) = _
    rw [if_pos (show ("object" = "object" ∧ ¬ a ∈ ([n] : List String)) from
      ⟨rfl, fun hmem => by
        rcases List.mem_cons.mp hmem with h | h
        · exact han h
        · cases h⟩)]
    rw [hbuildA]
    show (if ("object" = "object" ∧ ¬ b ∈ ([b, a, n] : List String)) then do
        let (_, st2) ← create_model_from_schema ((0 + 1) + 1) dB b S
          ⟨[b, a, n], [(b, defBv), (a, defAv)], [b, a]⟩
        buildDefsList (fun sch nm s => create_model_from_schema ((0 + 1) + 1) sch nm S s) [] st2
      else buildDefsList (fun sch nm s => create_model_from_schema ((0 + 1) + 1) sch nm S s)
        [] ⟨[b, a, n], [(b, defBv), (a, defAv)], [b, a]⟩) = _
    rw [if_neg (show ¬ ("object" = "object" ∧ ¬ b ∈ ([b, a, n] : List String)) from
      fun hp => hp.2 (by simp))]
    rfl
  show (do
    let st2 ← buildDefsList (fun sch nm s => create_model_from_schema ((0 + 1) + 1) sch nm S s)
      [(a, dA), (b, dB)] ⟨[n], [], []⟩
    (do
      let fields ← buildFields S (.arr []) []
      let m : ModelDef := ⟨n, fields⟩
      pure (m, { st2 with
        registry := registryInsert st2.registry n m,
        trace := st2.trace ++ [n] }) : Except Err (ModelDef × BState))) = _
  rw [hdefsTop]
  have hinsN : registryInsert [(b, defBv), (a, defAv)] n ⟨n, []⟩
      = [(b, defBv), (a, defAv), (n, ⟨n, []⟩)] := by
    unfold registryInsert
    rw [if_neg (show ¬ (List.any [(b, defBv), (a, defAv)] (fun p => p.1 == n) = true) by
      simp [hbn, han])]
    rfl
  show Except.ok ((⟨n, []⟩ : ModelDef), (⟨[b, a, n],
    registryInsert [(b, defBv), (a, defAv)] n ⟨n, []⟩, [b, a] ++ [n]⟩ : BState)) = _
  rw [hinsN]
  rfl

/-- Witness for C1: the concrete mutually referencing pair A and B under root
name Tool builds successfully with forward handles by name. -/
theorem C1_cycle_termination_witness :
    ("A" : String) ≠ "B" ∧ ("Tool" : String) ≠ "A" ∧ ("Tool" : String) ≠ "B" ∧
    ¬ '/' ∈ ("A" : String).data ∧ ¬ '/' ∈ ("B" : String).data ∧
    create_model_top (.obj [("type", .str "object"), ("properties", .obj []),
      ("$defs", .obj [
        ("A", .obj [("type", .str "object"), ("title", .str "A"),
          ("properties", .obj [("to_b", .obj [("$ref", .str ("#/$defs/" ++ "B"))])]),
          ("required", .arr [.str "to_b"])]),
        ("B", .obj [("type", .str "object"), ("title", .str "B"),
          ("properties", .obj [("to_a", .obj [("$ref", .str ("#/$defs/" ++ "A"))])]),
          ("required", .arr [.str "to_a"])])])]) "Tool"
      = .ok (⟨"Tool", []⟩, ⟨["B", "A", "Tool"],
          [("B", ⟨"B", [("to_a", ⟨.forwardRef (.str "A"), none, .str ""⟩)]⟩),
           ("A", ⟨"A", [("to_b", ⟨.forwardRef (.str "B"), none, .str ""⟩)]⟩),
           ("Tool", ⟨"Tool", []⟩)],
          ["B", "A", "Tool"]⟩) :=
  ⟨by decide, by decide, by decide, by decide, by decide,
   C1_cycle_termination "A" "B" "Tool" "to_b" "to_a" (by decide) (by decide) (by decide)
     (by decide) (by decide)⟩

/-- BProgress is reflexive: the memoized early return changes nothing. -/
theorem bprogress_refl (st : BState) : BProgress st st :=
  ⟨fun _ hx => hx, [], by simp, List.nodup_nil, fun x hx => absurd hx (List.not_mem_nil x)⟩

/-- BProgress composes across successive builder calls, provided the middle
state satisfies the session invariant. -/
theorem bprogress_trans {s1 s2 s3 : BState} (h12 : BProgress s1 s2) (h23 : BProgress s2 s3)
    (hok2 : BStateOK s2) : BProgress s1 s3 := by
  obtain ⟨g12, d1, ht1, hn1, hf1⟩ := h12
  obtain ⟨g23, d2, ht2, hn2, hf2⟩ := h23
  refine ⟨fun x hx => g23 x (g12 x hx), d1 ++ d2, by rw [ht2, ht1, List.append_assoc], ?_, ?_⟩
  · refine List.Nodup.append hn1 hn2 ?_
    intro x hx1 hx2
    have hxin2 : x ∈ s2.trace := by
      rw [ht1]; exact List.mem_append_right _ hx1
    exact hf2 x hx2 (hok2.2 x hxin2)
  · intro x hx
    rcases List.mem_append.mp hx with hl | hr
    · exact hf1 x hl
    · exact fun hc => hf2 x hr (g12 x hc)

/-- Inversion of a successful Except bind. -/
theorem except_bind_ok {α β : Type} {e : Except Err α} {f : α → Except Err β} {b : β}
    (h : (e >>= f) = .ok b) : ∃ a, e = .ok a ∧ f a = .ok b := by
  cases e with
  | error err => exact Except.noConfusion h
  | ok a => exact ⟨a, rfl, h⟩

/-- Inserting a name absent from the registry appends a new entry. -/
theorem registryInsert_fresh (reg : List (String × ModelDef)) (k : String) (m : ModelDef)
    (hk : ¬ k ∈ reg.map Prod.fst) : registryInsert reg k m = reg ++ [(k, m)] := by
  unfold registryInsert
  rw [if_neg]
  intro hany
  obtain ⟨p, hp, hpk⟩ := List.any_eq_true.mp hany
  exact hk (List.mem_map.mpr ⟨p, hp, eq_of_beq hpk⟩)

/-- With duplicate-free keys, lookup finds exactly the entry that is in the
registry. -/
theorem registryLookup_mem : ∀ (reg : List (String × ModelDef)),
    (reg.map Prod.fst).Nodup →
    ∀ b mdef, (b, mdef) ∈ reg → registryLookup reg b = some mdef
  | [], _, b, mdef, h => absurd h (List.not_mem_nil _)
  | (k, mm) :: rest, hnd, b, mdef, h => by
    rcases List.mem_cons.mp h with heq | htail
    · have hk : k = b := (congrArg Prod.fst heq).symm
      have hm : mm = mdef := congrArg Prod.snd heq.symm
      show (if k = b then some mm else registryLookup rest b) = some mdef
      rw [if_pos hk, hm]
    · have hbmem : b ∈ rest.map Prod.fst := List.mem_map.mpr ⟨(b, mdef), htail, rfl⟩
      have hbk : ¬ k = b := fun hkb => (List.nodup_cons.mp hnd).1 (by rw [hkb]; exact hbmem)
      show (if k = b then some mm else registryLookup rest b) = some mdef
      rw [if_neg hbk]
      exact registryLookup_mem rest (List.nodup_cons.mp hnd).2 b mdef htail

/-- Inversion of the fields phase (lines 172-189): success forces the name to
be registered and traced on top of the state the defs loop produced. -/
theorem finish_ok {root schema : Json} {name : String} {st2 : BState}
    {m : ModelDef} {st2' : BState}
    (h : finishPhase root schema name st2 = Except.ok (m, st2')) :
    st2' = { st2 with
      registry := registryInsert st2.registry name m,
      trace := st2.trace ++ [name] } := by
  cases schema with
  | obj skvs =>
    replace h : (match jsonGetD skvs "properties" (.obj []) with
      | Json.obj plist => do
        let fields ← buildFields root (jsonGetD skvs "required" (.arr [])) plist
        pure ((⟨name, fields⟩ : ModelDef), { st2 with
          registry := registryInsert st2.registry name (⟨name, fields⟩ : ModelDef),
          trace := st2.trace ++ [name] })
      | _ => (throw .attributeError : Except Err (ModelDef × BState)))
      = Except.ok (m, st2') := h
    cases hget : jsonGetD skvs "properties" (.obj []) with
    | obj plist =>
      rw [hget] at h
      obtain ⟨fields, hbf, h2⟩ := except_bind_ok h
      have hp := Except.ok.inj h2
      have hm : (⟨name, fields⟩ : ModelDef) = m := congrArg Prod.fst hp
      have hst : ({ st2 with
          registry := registryInsert st2.registry name (⟨name, fields⟩ : ModelDef),
          trace := st2.trace ++ [name] } : BState) = st2' := congrArg Prod.snd hp
      rw [← hst, ← hm]
    | null => rw [hget] at h; exact Except.noConfusion h
    | bool bb => rw [hget] at h; exact Except.noConfusion h
    | num q => rw [hget] at h; exact Except.noConfusion h
    | str ss => rw [hget] at h; exact Except.noConfusion h
    | arr xs => rw [hget] at h; exact Except.noConfusion h
  | null => exact Except.noConfusion h
  | bool bb => exact Except.noConfusion h
  | num q => exact Except.noConfusion h
  | str ss => exact Except.noConfusion h
  | arr xs => exact Except.noConfusion h

/-- The ending of a non-memoized builder call preserves the session invariant
and makes progress: the name is registered and traced exactly once. -/
theorem finish_progress {root schema : Json} {name : String} {st st2 : BState}
    {m : ModelDef} {st2' : BState}
    (h : finishPhase root schema name st2 = Except.ok (m, st2'))
    (hok : BStateOK st)
    (hmem : ¬ name ∈ st.created)
    (hok2 : BStateOK st2)
    (hp12 : BProgress { st with created := name :: st.created } st2) :
    BStateOK st2' ∧ BProgress st st2' := by
  have hst2' := finish_ok h
  have hreg2 : st2'.registry = registryInsert st2.registry name m := by rw [hst2']
  have htr2 : st2'.trace = st2.trace ++ [name] := by rw [hst2']
  have hcr2 : st2'.created = st2.created := by rw [hst2']
  obtain ⟨g12, d1, ht1, hn1, hf1⟩ := hp12
  replace g12 : ∀ x ∈ name :: st.created, x ∈ st2.created := g12
  replace ht1 : st2.trace = st.trace ++ d1 := ht1
  replace hf1 : ∀ x ∈ d1, ¬ x ∈ name :: st.created := hf1
  have hnameC2 : name ∈ st2.created := g12 name (List.mem_cons_self name st.created)
  have hnameNotTr : ¬ name ∈ st2.trace := by
    rw [ht1]
    intro hcon
    rcases List.mem_append.mp hcon with hl | hr
    · exact hmem (hok.2 name hl)
    · exact hf1 name hr (List.mem_cons_self name st.created)
  have hnameNotReg : ¬ name ∈ st2.registry.map Prod.fst := by
    rw [hok2.1]; exact hnameNotTr
  have hins := registryInsert_fresh st2.registry name m hnameNotReg
  refine ⟨⟨?_, ?_⟩, ?_, d1 ++ [name], ?_, ?_, ?_⟩
  · rw [hreg2, htr2, hins, List.map_append, hok2.1]
    rfl
  · intro x hx
    rw [htr2] at hx
    rw [hcr2]
    rcases List.mem_append.mp hx with hl | hr
    · exact hok2.2 x hl
    · rw [List.mem_singleton.mp hr]; exact hnameC2
  · intro x hx
    rw [hcr2]
    exact g12 x (List.mem_cons_of_mem _ hx)
  · rw [htr2, ht1, List.append_assoc]
  · refine List.Nodup.append hn1 (List.nodup_singleton name) ?_
    intro x hx1 hx2
    rw [List.mem_singleton.mp hx2] at hx1
    exact hf1 name hx1 (List.mem_cons_self name st.created)
  · intro x hx
    rcases List.mem_append.mp hx with hl | hr
    · exact fun hc => hf1 x hl (List.mem_cons_of_mem _ hc)
    · rw [List.mem_singleton.mp hr]; exact hmem

/-- The defs loop preserves the session invariant and accumulates progress,
assuming every recursive builder call does. -/
theorem buildDefsList_ok_progress
    (recurse : Json → String → BState → Except Err (ModelDef × BState))
    (hrec : ∀ sch nm sa ma sa2, recurse sch nm sa = .ok (ma, sa2) → BStateOK sa →
      BStateOK sa2 ∧ BProgress sa sa2) :
    ∀ (defs : List (String × Json)) (st st2 : BState),
      buildDefsList recurse defs st = .ok st2 → BStateOK st →
      BStateOK st2 ∧ BProgress st st2
  | [], st, st2, h, hok => by
    have hst : st = st2 := Except.ok.inj h
    rw [← hst]
    exact ⟨hok, bprogress_refl st⟩
  | (k, v) :: rest, st, st2, h, hok => by
    cases v with
    | obj vkvs =>
      replace h : (match jsonLookup vkvs "type" with
        | some (Json.str tname) =>
          if tname = "object" ∧ ¬ (k ∈ st.created) then do
            let (_, stm) ← recurse (Json.obj vkvs) k st
            buildDefsList recurse rest stm
          else buildDefsList recurse rest st
        | _ => buildDefsList recurse rest st) = Except.ok st2 := h
      cases hjl : jsonLookup vkvs "type" with
      | none =>
        rw [hjl] at h
        exact buildDefsList_ok_progress recurse hrec rest st st2 h hok
      | some jv =>
        rw [hjl] at h
        cases jv with
        | str tname =>
          replace h : (if tname = "object" ∧ ¬ (k ∈ st.created) then do
              let (_, stm) ← recurse (Json.obj vkvs) k st
              buildDefsList recurse rest stm
            else buildDefsList recurse rest st) = Except.ok st2 := h
          by_cases hguard : tname = "object" ∧ ¬ (k ∈ st.created)
          · rw [if_pos hguard] at h
            obtain ⟨⟨m1, stmid⟩, hcall, hrest⟩ := except_bind_ok h
            obtain ⟨hok2, hp2⟩ := hrec _ _ _ _ _ hcall hok
            obtain ⟨hok3, hp3⟩ :=
              buildDefsList_ok_progress recurse hrec rest stmid st2 hrest hok2
            exact ⟨hok3, bprogress_trans hp2 hp3 hok2⟩
          · rw [if_neg hguard] at h
            exact buildDefsList_ok_progress recurse hrec rest st st2 h hok
        | null => exact buildDefsList_ok_progress recurse hrec rest st st2 h hok
        | bool bb => exact buildDefsList_ok_progress recurse hrec rest st st2 h hok
        | num q => exact buildDefsList_ok_progress recurse hrec rest st st2 h hok
        | arr xs => exact buildDefsList_ok_progress recurse hrec rest st st2 h hok
        | obj okvs => exact buildDefsList_ok_progress recurse hrec rest st st2 h hok
    | null => exact Except.noConfusion h
    | bool bb => exact Except.noConfusion h
    | num q => exact Except.noConfusion h
    | str ss => exact Except.noConfusion h
    | arr xs => exact Except.noConfusion h

/-- Every successful builder call preserves the session invariant and makes
duplicate-free progress: names already in created_models are never rebuilt. -/
theorem create_ok_progress : ∀ (fuel : Nat) (schema : Json) (name : String) (root : Json)
    (st : BState) (m : ModelDef) (st2 : BState),
    create_model_from_schema fuel schema name root st = .ok (m, st2) → BStateOK st →
    BStateOK st2 ∧ BProgress st st2
  | 0, _, _, _, _, _, _, h, _ => Except.noConfusion h
  | fuel + 1, schema, name, root, st, m, st2, h, hok => by
    simp only [create_model_from_schema] at h
    by_cases hmem : name ∈ st.created
    · rw [if_pos hmem] at h
      cases hreg : registryLookup st.registry name with
      | none => rw [hreg] at h; exact Except.noConfusion h
      | some mm =>
        rw [hreg] at h
        have hp := Except.ok.inj h
        have hst : st = st2 := congrArg Prod.snd hp
        rw [← hst]
        exact ⟨hok, bprogress_refl st⟩
    · rw [if_neg hmem] at h
      obtain ⟨hd, hpc, h⟩ := except_bind_ok h
      have hok1 : BStateOK { st with created := name :: st.created } :=
        ⟨hok.1, fun x hx => List.mem_cons_of_mem _ (hok.2 x hx)⟩
      cases hd with
      | false =>
        replace h : finishPhase root schema name { st with created := name :: st.created }
            = Except.ok (m, st2) := h
        exact finish_progress h hok hmem hok1 (bprogress_refl _)
      | true =>
        cases root with
        | obj rkvs =>
          replace h : (match jsonLookup rkvs "$defs" with
            | some (Json.obj defs) => do
                let stm ← buildDefsList
                  (fun sch nm s => create_model_from_schema fuel sch nm (Json.obj rkvs) s)
                  defs { st with created := name :: st.created }
                finishPhase (Json.obj rkvs) schema name stm
            | some _ => do
                let stm ← (throw Err.attributeError : Except Err BState)
                finishPhase (Json.obj rkvs) schema name stm
            | none => finishPhase (Json.obj rkvs) schema name
                { st with created := name :: st.created }) = Except.ok (m, st2) := h
          cases hjl : jsonLookup rkvs "$defs" with
          | none =>
            rw [hjl] at h
            exact finish_progress h hok hmem hok1 (bprogress_refl _)
          | some v =>
            rw [hjl] at h
            cases v with
            | obj defs =>
              obtain ⟨stmid, hdefs, h⟩ := except_bind_ok h
              obtain ⟨hok2, hp12⟩ := buildDefsList_ok_progress _
                (fun sch nm sa ma sa2 hh hko =>
                  create_ok_progress fuel sch nm (Json.obj rkvs) sa ma sa2 hh hko)
                defs _ stmid hdefs hok1
              exact finish_progress h hok hmem hok2 hp12
            | null => exact Except.noConfusion h
            | bool bb => exact Except.noConfusion h
            | num q => exact Except.noConfusion h
            | str ss => exact Except.noConfusion h
            | arr xs => exact Except.noConfusion h
        | null => exact Except.noConfusion h
        | bool bb => exact Except.noConfusion h
        | num q => exact Except.noConfusion h
        | str ss => exact Except.noConfusion h
        | arr xs => exact Except.noConfusion h

/-- C2: in every successful top-level build session the construction logic
runs exactly once per model name.  The build trace (one entry per run of the
fields phase) lists pairwise distinct names, the module registry holds
exactly the traced names in build order, and for every registered name (in
particular a definition B referenced several times within the session) the
trace counts exactly one construction and lookup of the name resolves to
that single registered model definition, so every reference to the name in
the session yields the identical definition. -/
theorem C2_memoized_once (schema : Json) (name : String) (m : ModelDef) (st : BState)
    (h : create_model_top schema name = .ok (m, st)) :
    st.trace.Nodup ∧ st.registry.map Prod.fst = st.trace ∧
    ∀ b mdef, (b, mdef) ∈ st.registry →
      st.trace.count b = 1 ∧ registryLookup st.registry b = some mdef := by
  have h0 : BStateOK ⟨[], [], []⟩ :=
    ⟨rfl, fun x hx => absurd hx (List.not_mem_nil x)⟩
  obtain ⟨hok2, hprog⟩ :=
    create_ok_progress (defsCount schema + 1) schema name schema ⟨[], [], []⟩ m st h h0
  obtain ⟨g, d, ht, hn, hf⟩ := hprog
  replace ht : st.trace = d := ht
  have htr : st.trace.Nodup := by rw [ht]; exact hn
  refine ⟨htr, hok2.1, ?_⟩
  intro b mdef hbm
  have hbk : b ∈ st.registry.map Prod.fst := List.mem_map.mpr ⟨(b, mdef), hbm, rfl⟩
  rw [hok2.1] at hbk
  refine ⟨List.count_eq_one_of_mem htr hbk, ?_⟩
  have hnd : (st.registry.map Prod.fst).Nodup := by rw [hok2.1]; exact htr
  exact registryLookup_mem st.registry hnd b mdef hbm

/-- Witness for C2: a schema whose defs hold A and B, with B referenced once
from the root and once from A; the session builds B exactly once (trace
count 1) and lookup of B resolves to the single registered definition. -/
theorem C2_memoized_once_witness :
    create_model_top (Json.obj [("type", .str "object"),
      ("properties", .obj [("direct", .obj [("$ref", .str "#/$defs/B")])]),
      ("required", .arr [.str "direct"]),
      ("$defs", .obj [
        ("A", .obj [("type", .str "object"), ("title", .str "A"),
          ("properties", .obj [("to_b", .obj [("$ref", .str "#/$defs/B")])]),
          ("required", .arr [.str "to_b"])]),
        ("B", .obj [("type", .str "object"), ("title", .str "B"),
          ("properties", .obj [])])])]) "Tool"
    = .ok (⟨"Tool", [("direct", ⟨.forwardRef (.str "B"), none, .str ""⟩)]⟩,
        ⟨["B", "A", "Tool"],
         [("B", ⟨"B", []⟩),
          ("A", ⟨"A", [("to_b", ⟨.forwardRef (.str "B"), none, .str ""⟩)]⟩),
          ("Tool", ⟨"Tool", [("direct", ⟨.forwardRef (.str "B"), none, .str ""⟩)]⟩)],
         ["B", "A", "Tool"]⟩)
    ∧ (["B", "A", "Tool"] : List String).count "B" = 1
    ∧ registryLookup
        [("B", ⟨"B", []⟩),
         ("A", ⟨"A", [("to_b", ⟨.forwardRef (.str "B"), none, .str ""⟩)]⟩),
         ("Tool", ⟨"Tool", [("direct", ⟨.forwardRef (.str "B"), none, .str ""⟩)]⟩)]
        "B" = some ⟨"B", []⟩ :=
  ⟨rfl,
   ((C2_memoized_once (Json.obj [("type", .str "object"),
      ("properties", .obj [("direct", .obj [("$ref", .str "#/$defs/B")])]),
      ("required", .arr [.str "direct"]),
      ("$defs", .obj [
        ("A", .obj [("type", .str "object"), ("title", .str "A"),
          ("properties", .obj [("to_b", .obj [("$ref", .str "#/$defs/B")])]),
          ("required", .arr [.str "to_b"])]),
        ("B", .obj [("type", .str "object"), ("title", .str "B"),
          ("properties", .obj [])])])]) "Tool"
      (⟨"Tool", [("direct", ⟨.forwardRef (.str "B"), none, .str ""⟩)]⟩)
      (⟨["B", "A", "Tool"],
        [("B", ⟨"B", []⟩),
         ("A", ⟨"A", [("to_b", ⟨.forwardRef (.str "B"), none, .str ""⟩)]⟩),
         ("Tool", ⟨"Tool", [("direct", ⟨.forwardRef (.str "B"), none, .str ""⟩)]⟩)],
        ["B", "A", "Tool"]⟩) rfl).2.2 "B" ⟨"B", []⟩ (List.mem_cons_self _ _)).1,
   ((C2_memoized_once (Json.obj [("type", .str "object"),
      ("properties", .obj [("direct", .obj [("$ref", .str "#/$defs/B")])]),
      ("required", .arr [.str "direct"]),
      ("$defs", .obj [
        ("A", .obj [("type", .str "object"), ("title", .str "A"),
          ("properties", .obj [("to_b", .obj [("$ref", .str "#/$defs/B")])]),
          ("required", .arr [.str "to_b"])]),
        ("B", .obj [("type", .str "object"), ("title", .str "B"),
          ("properties", .obj [])])])]) "Tool"
      (⟨"Tool", [("direct", ⟨.forwardRef (.str "B"), none, .str ""⟩)]⟩)
      (⟨["B", "A", "Tool"],
        [("B", ⟨"B", []⟩),
         ("A", ⟨"A", [("to_b", ⟨.forwardRef (.str "B"), none, .str ""⟩)]⟩),
         ("Tool", ⟨"Tool", [("direct", ⟨.forwardRef (.str "B"), none, .str ""⟩)]⟩)],
        ["B", "A", "Tool"]⟩) rfl).2.2 "B" ⟨"B", []⟩ (List.mem_cons_self _ _)).2⟩
